import Mathlib

/-!
# Verification of the simulation core `World.cpp`

A shallow embedding of `src/game/src/tank/gc/World.cpp` and the properties its
specification states about it.

Modelling conventions

* `float` quantities (`_time`, `_sx`, `_sy`, `dt`, ...) are rationals, or
  elements of an ordered field where a square root is needed, and their
  arithmetic is exact, with one exception: the addition `_time += dt` of `Step`
  is the addition of the type `float`, `fadd`, which rounds the exact sum to the
  nearest `float` (binary32, ties to even; overflow to infinity is left out).
* `unsigned long` is a natural number reduced modulo `2 ^ bits`.
* `int` is an unbounded integer; `/` and `%` on `int` are `Int.tdiv` and
  `Int.tmod` (truncation towards zero), and the cast `(int) f` is `toInt`.
* A `GC_Object*` is an object identity `ObjId`; a pointer is live exactly when an
  object with that identity is on `LIST_objects`.
* `assert(e)` does not change control flow (the behaviour of a build with
  `NDEBUG`).  Whether an assertion holds is read off the state in which it is
  evaluated: `Step` returns, next to the new world, the list of calls it made,
  each with the world state at the moment of the call.
* Code that `World.cpp` calls but which lives in other files (virtual methods
  of game objects, the Lua command queue, the type registry, the save file
  helper) is a parameter: the fields of `Behaviour` and of `SaveEnv`.
* The template `RayTrace` of `World.inl` is represented by the sequence of
  `Select` calls it makes on the selector it is given.  `RayTraceCalls` produces
  that sequence from the bodies of the visited cells: each body is tested
  against the segment the selector reports at that moment through `GetCenter()`
  and `GetDirection()`; the intersection test is a parameter.
-/

namespace Tzod

set_option maxRecDepth 100000

/-! ## Data model -/

/-- Identity of a game object; stands for the address held in a `GC_Object*`. -/
abbrev ObjId := Nat

/-- The serialized type tag of a game object (`ObjectType`). -/
abbrev ObjectType := Nat

/-- A live game object: its identity and the value of `GetType()`. -/
structure GC_Object where
  id : ObjId
  type : ObjectType
deriving DecidableEq, Repr

/-- The configuration variables of `g_conf` that `World.cpp` reads or writes. -/
structure Config where
  sv_timelimit : ℚ
  sv_fraglimit : Int
  sv_nightmode : Bool
deriving DecidableEq, Repr

/-- The members of `World` that `World.cpp` reads or writes, the object lists
`LIST_objects`, `LIST_timestep` and `LIST_sounds`, and the global `g_conf`. -/
structure World where
  _frozen : Bool
  _limitHit : Bool
  _sx : ℚ
  _sy : ℚ
  _locationsX : Int
  _locationsY : Int
  _seed : Nat
  _time : ℚ
  _safeMode : Bool
  _infoAuthor : String
  _infoEmail : String
  _infoUrl : String
  _infoDesc : String
  _infoTheme : String
  _infoOnInit : String
  objects : List GC_Object
  timestep : List ObjId
  sounds : List ObjId
  g_conf : Config
deriving DecidableEq, Repr

/-- The state `World::World()` establishes, for a given configuration. -/
def World.new (conf : Config) : World where
  _frozen := false
  _limitHit := false
  _sx := 0
  _sy := 0
  _locationsX := 0
  _locationsY := 0
  _seed := 1
  _time := 0
  _safeMode := true
  _infoAuthor := ""
  _infoEmail := ""
  _infoUrl := ""
  _infoDesc := ""
  _infoTheme := ""
  _infoOnInit := ""
  objects := []
  timestep := []
  sounds := []
  g_conf := conf

/-! ## Deterministic pseudo-random source -/

/-- The method `World::Seed`: `_seed = seed`, the argument being an `unsigned long` of
`bits` bits. -/
def Seed (bits : Nat) (seed : Nat) (w : World) : World :=
  { w with _seed := seed % 2 ^ bits }

/-- The method `World::net_rand`:
`return ((_seed = _seed * 214013L + 2531011L) >> 16) & RAND_MAX;`
with `_seed` an `unsigned long` of `bits` bits. -/
def net_rand (bits RAND_MAX : Nat) (w : World) : Nat × World :=
  let seed := (w._seed * 214013 + 2531011) % 2 ^ bits
  ((seed >>> 16) &&& RAND_MAX, { w with _seed := seed })

/-- The results of `n` successive calls of `net_rand`, and the world left. -/
def drawN (bits RAND_MAX : Nat) : Nat → World → List Nat × World
  | 0, w => ([], w)
  | n + 1, w =>
    let r := net_rand bits RAND_MAX w
    let rs := drawN bits RAND_MAX n r.2
    (r.1 :: rs.1, rs.2)

/-- The recurrence of the specification: `s_0 = s` and
`s_{i+1} = s_i * 214013 + 2531011`, in arithmetic modulo `2 ^ bits`. -/
def lcgSeq (bits s : Nat) : Nat → Nat
  | 0 => s % 2 ^ bits
  | i + 1 => (lcgSeq bits s i * 214013 + 2531011) % 2 ^ bits

/-! ## World lifetime: `IsEmpty`, `Resize`, `Kill`, `Clear`, `HitLimit` -/

/-- The cast `(int) f` of a `float` to `int`: truncation towards zero. -/
def toInt (q : ℚ) : Int := if 0 ≤ q then ⌊q⌋ else ⌈q⌉

/-- Modelled from the spec: `ConfVarNumber::GetInt` of `config/Config.h`, which is
not among the sources; the configured time limit read as an `int`. -/
def Config.sv_timelimit_GetInt (c : Config) : Int := toInt c.sv_timelimit

/-- The method `World::IsEmpty`: `return GetList(LIST_objects).empty();` -/
def IsEmpty (w : World) : Bool := w.objects.isEmpty

/-- Modelled from the spec: `World::IsSafeMode` of `World.h`, which is not among
the sources; the safe-mode flag that structural operations assert. -/
def IsSafeMode (w : World) : Bool := w._safeMode

/-- The liveness test `if (watch)` of an `ObjPtr<GC_Object> watch(o)`: the
object has not been killed, that is, it still is on `LIST_objects`. -/
def isAlive (o : ObjId) (w : World) : Bool := w.objects.any (fun x => x.id == o)

/-- The method `World::Resize`.  The grids and the field are resized to the dimensions
stored in `_locationsX`, `_locationsY`; they hold no other state here. -/
def Resize (CELL_SIZE LOCATION_SIZE : Int) (X Y : Int) (w : World) : World :=
  { w with
    _locationsX := Int.tdiv (X * CELL_SIZE) LOCATION_SIZE
        + (if Int.tmod (X * CELL_SIZE) LOCATION_SIZE ≠ 0 then 1 else 0)
    _locationsY := Int.tdiv (Y * CELL_SIZE) LOCATION_SIZE
        + (if Int.tmod (Y * CELL_SIZE) LOCATION_SIZE ≠ 0 then 1 else 0)
    _sx := (X : ℚ) * (CELL_SIZE : ℚ)
    _sy := (Y : ℚ) * (CELL_SIZE : ℚ) }

/-- The assertion `Resize` checks on entry: `assert(IsEmpty())`. -/
def Resize_assert (w : World) : Bool := IsEmpty w

/-- Modelled from the spec: `GC_Object::Kill`, which is not among the sources;
the kill operation removes the object from every list it occupies. -/
def Kill (o : ObjId) (w : World) : World :=
  { w with
    objects := w.objects.filter (fun x => x.id != o)
    timestep := w.timestep.filter (fun x => x != o)
    sounds := w.sounds.filter (fun x => x != o) }

/-- The loop `while( !ls.empty() ) ls.at(ls.begin())->Kill(*this);` of `Clear`,
run for at most `fuel` iterations. -/
def killAll : Nat → World → World
  | 0, w => w
  | fuel + 1, w =>
    match w.objects with
    | [] => w
    | o :: _ => killAll fuel (Kill o.id w)

/-- The method `World::Clear`.  Every iteration of the kill loop removes the first object
of `LIST_objects`, so the length of that list is enough fuel (`Clear_objects`). -/
def Clear (w : World) : World :=
  let w1 := killAll w.objects.length w
  { w1 with
    _infoAuthor := ""
    _infoEmail := ""
    _infoUrl := ""
    _infoDesc := ""
    _infoTheme := ""
    _infoOnInit := ""
    _time := 0
    _limitHit := false
    _frozen := false }

/-- The assertion `Clear` checks on entry: `assert(IsSafeMode())`. -/
def Clear_assert (w : World) : Bool := IsSafeMode w

/-! ## Arithmetic of the type `float` -/

/-- Rounding of a rational number to the nearest integer, ties to even. -/
def roundHalfEven (q : ℚ) : Int :=
  if q - ⌊q⌋ < 1 / 2 then ⌊q⌋
  else if 1 / 2 < q - ⌊q⌋ then ⌊q⌋ + 1
  else if ⌊q⌋ % 2 = 0 then ⌊q⌋ else ⌊q⌋ + 1

/-- The value of type `float` (IEEE 754 binary32, 24 significant bits, least
exponent -126) nearest to `q`, ties to even. -/
def toFloat (q : ℚ) : ℚ :=
  (roundHalfEven (q / 2 ^ (max (Int.log 2 |q|) (-126) - 23)) : ℚ)
    * 2 ^ (max (Int.log 2 |q|) (-126) - 23)

/-- The sum of two values of type `float`, as `_time += dt` computes it. -/
def fadd (a b : ℚ) : ℚ := toFloat (a + b)

/-! ## The simulation clock: `Step` -/

/-- The code outside `World.cpp` that `Step` calls: the virtual updates of the
game objects, the dynamics response pass, the Lua command queue, the sound
played by the macro `PLAY(SND_Limit, ...)` and `GC_Sound::KillWhenFinished`.
Each receives the world and may change it. -/
structure Behaviour where
  TimeStepFixed : ObjId → ℚ → World → World
  TimeStepFloat : ObjId → ℚ → World → World
  ProcessResponse : ℚ → World → World
  RunCmdQueue : ℚ → World → World
  PLAY_SND_Limit : World → World
  KillWhenFinished : ObjId → World → World

/-- A call `Step` makes. -/
inductive Call where
  | TimeStepFixed (o : ObjId)
  | TimeStepFloat (o : ObjId)
  | ProcessResponse
  | RunCmdQueue
  | HitLimit
  | KillWhenFinished (o : ObjId)
deriving DecidableEq, Repr

/-- The calls made, in order, each with the world state at the moment of the
call. -/
abbrev Trace := List (Call × World)

/-- Modelled from the spec: `ObjectList::for_each`, which is not among the
sources; a traversal that is safe against mutation: it walks the identities that
were on the list when it started, in list order, and visits one only if it still
is on the list when its turn comes (a removed entity is not visited, an added
one is not visited in this pass). -/
def for_each (list : World → List ObjId) (f : ObjId → World → World × Trace) :
    List ObjId → World → World × Trace
  | [], w => (w, [])
  | o :: rest, w =>
    if o ∈ list w then
      let r := f o w
      let r2 := for_each list f rest r.1
      (r2.1, r.2 ++ r2.2)
    else for_each list f rest w

/-- The method `World::HitLimit`: `assert(!_limitHit); _limitHit = true; PLAY(SND_Limit, ...)`. -/
def HitLimit (B : Behaviour) (w : World) : World :=
  B.PLAY_SND_Limit { w with _limitHit := true }

/-- The assertion `HitLimit` checks on entry: `assert(!_limitHit)`. -/
def HitLimit_assert (w : World) : Bool := !w._limitHit

/-- The body of the lambda `Step` passes to `for_each` over `LIST_timestep`:
`TimeStepFixed`, then `TimeStepFloat` if the watched pointer is still set. -/
def stepVisit (B : Behaviour) (dt : ℚ) (o : ObjId) (s : World) : World × Trace :=
  let s1 := B.TimeStepFixed o dt s
  if isAlive o s1 then
    (B.TimeStepFloat o dt s1, [(Call.TimeStepFixed o, s), (Call.TimeStepFloat o, s1)])
  else
    (s1, [(Call.TimeStepFixed o, s)])

/-- The body of the lambda `Step` passes to `for_each` over `LIST_sounds`. -/
def soundVisit (B : Behaviour) (o : ObjId) (s : World) : World × Trace :=
  (B.KillWhenFinished o s, [(Call.KillWhenFinished o, s)])

/-- The block `if( !_frozen ) { ... }` of `Step`. -/
def stepPhysics (B : Behaviour) (dt : ℚ) (w0 : World) : World × Trace :=
  if !w0._frozen then
    let w1 := { w0 with _safeMode := false }
    let r := for_each (fun s => s.timestep) (stepVisit B dt) w1.timestep w1
    let w2 := B.ProcessResponse dt r.1
    ({ w2 with _safeMode := true }, r.2 ++ [(Call.ProcessResponse, r.1)])
  else (w0, [])

/-- The time-limit check of `Step`:
`if( g_conf.sv_timelimit.GetInt() && g_conf.sv_timelimit.GetInt() * 60 <= _time ) HitLimit();` -/
def stepLimit (B : Behaviour) (w3 : World) : World × Trace :=
  if w3.g_conf.sv_timelimit_GetInt ≠ 0
      ∧ ((w3.g_conf.sv_timelimit_GetInt * 60 : Int) : ℚ) ≤ w3._time then
    (HitLimit B w3, [(Call.HitLimit, w3)])
  else (w3, [])

/-- The traversal of `LIST_sounds` that ends `Step`. -/
def stepSounds (B : Behaviour) (w : World) : World × Trace :=
  for_each (fun s => s.sounds) (soundVisit B) w.sounds w

/-- The method `World::Step`, without the `NETWORK_DEBUG` section.  The statement
`_time += dt` is an addition of two values of type `float`, `fadd`.  The state
in which `assert(_safeMode)` is evaluated is the one recorded with
`Call.RunCmdQueue`. -/
def Step (B : Behaviour) (dt : ℚ) (w : World) : World × Trace :=
  let p := stepPhysics B dt { w with _time := fadd w._time dt }
  let w3 := B.RunCmdQueue dt p.1
  let q := stepLimit B w3
  let r := stepSounds B q.1
  (r.1, p.2 ++ [(Call.RunCmdQueue, p.1)] ++ q.2 ++ r.2)

/-- The traces of the calls `Step(dt_1)`, ..., `Step(dt_n)`, one after another. -/
def runTrace (B : Behaviour) : List ℚ → World → Trace
  | [], _ => []
  | dt :: dts, w => (Step B dt w).2 ++ runTrace B dts (Step B dt w).1

/-- The code `Step` calls leaves the quantity `π` of the world as it is. -/
structure Behaviour.Keeps {α : Type} (B : Behaviour) (π : World → α) : Prop where
  fixed : ∀ o dt w, π (B.TimeStepFixed o dt w) = π w
  float : ∀ o dt w, π (B.TimeStepFloat o dt w) = π w
  response : ∀ dt w, π (B.ProcessResponse dt w) = π w
  cmdQueue : ∀ dt w, π (B.RunCmdQueue dt w) = π w
  play : ∀ w, π (B.PLAY_SND_Limit w) = π w
  sound : ∀ o w, π (B.KillWhenFinished o w) = π w

/-- The behaviour of a world in which no called code changes anything. -/
def Behaviour.idle : Behaviour where
  TimeStepFixed := fun _ _ w => w
  TimeStepFloat := fun _ _ w => w
  ProcessResponse := fun _ w => w
  RunCmdQueue := fun _ w => w
  PLAY_SND_Limit := fun w => w
  KillWhenFinished := fun _ w => w

/-- The calls made inside the part of `Step` that runs with `_safeMode` cleared. -/
def Call.inPass : Call → Bool
  | .TimeStepFixed _ => true
  | .TimeStepFloat _ => true
  | .ProcessResponse => true
  | _ => false

/-- A configuration without limits, in day mode. -/
def Config.noLimits : Config := ⟨0, 0, false⟩

/-- Scenario A: the empty world after `Resize(10, 10)`, with cells of 32 units
and locations of 128 units. -/
def scenarioA : World := Resize 32 128 10 10 (World.new Config.noLimits)

/-- A fresh world with a time limit of one minute configured. -/
def limitWorld : World := World.new ⟨1, 0, false⟩

/-- A world with the single object 1, which takes part in the time step. -/
def soloWorld : World :=
  { World.new Config.noLimits with objects := [⟨1, 0⟩], timestep := [1] }

/-- A behaviour in which every object kills itself in its fixed-step update. -/
def Behaviour.suicidal : Behaviour :=
  { Behaviour.idle with TimeStepFixed := fun o _ w => Kill o w }

/-- A world with two objects, of the types 3 and 5. -/
def duoWorld : World :=
  { World.new Config.noLimits with objects := [⟨1, 3⟩, ⟨2, 5⟩] }

/-- The calls of a pass over `LIST_timestep` as the specification describes it:
each visited entity, visited in state `v.2`, receives its fixed-step update, and
then its float-step update, in the state the fixed-step update returned, exactly
if it is alive in that state. -/
def passCalls (B : Behaviour) (dt : ℚ) (visits : List (ObjId × World)) : Trace :=
  visits.flatMap fun v =>
    (Call.TimeStepFixed v.1, v.2) ::
      (if isAlive v.1 (B.TimeStepFixed v.1 dt v.2) then
        [(Call.TimeStepFloat v.1, B.TimeStepFixed v.1 dt v.2)] else [])

/-- What the visit of the entity `o` in the state `s` leaves behind, as the
specification describes it: the state after its fixed-step update, followed by
its float-step update if it is alive then. -/
def visitEffect (B : Behaviour) (dt : ℚ) (o : ObjId) (s : World) : World :=
  if isAlive o (B.TimeStepFixed o dt s) then
    B.TimeStepFloat o dt (B.TimeStepFixed o dt s)
  else B.TimeStepFixed o dt s

/-- The visits of a pass over the timestep list, as the specification describes
them: the entities that were on the list when the pass started are taken in
list order, and one is visited, in the state the visits before it left behind,
if it still is on the list then. -/
def passVisits (B : Behaviour) (dt : ℚ) : List ObjId → World → List (ObjId × World)
  | [], _ => []
  | o :: rest, s =>
    if o ∈ s.timestep then (o, s) :: passVisits B dt rest (visitEffect B dt o s)
    else passVisits B dt rest s

/-- The state the visits of a pass leave behind. -/
def passEnd (B : Behaviour) (dt : ℚ) : List ObjId → World → World
  | [], s => s
  | o :: rest, s =>
    if o ∈ s.timestep then passEnd B dt rest (visitEffect B dt o s)
    else passEnd B dt rest s

/-- The float nearest to 1/60. -/
def dt60 : ℚ := 8947849 / 536870912

/-- A behaviour whose command queue holds a command that clears the world. -/
def Behaviour.clearing : Behaviour :=
  { Behaviour.idle with RunCmdQueue := fun _ w => Clear w }

/-! ## Ballistic intercept solver -/

/-- The type `vec2d`, with coordinates in `K`. -/
structure vec2d (K : Type) where
  x : K
  y : K

/-- Modelled from the spec: `vec2d::len` of the math header, which is not among
the sources; the length of the vector, the speed when it is a velocity.  The
square root is a parameter `sqrt`. -/
def vec2d.len {K : Type} [LinearOrderedField K] (sqrt : K → K) (v : vec2d K) : K :=
  sqrt (v.x * v.x + v.y * v.y)

/-- The point `CalcOutstrip` computes before it clamps it to the world bounds:
`(fp.x + fx*cg - y*sg, fp.y + fx*sg + y*cg)`. -/
def outstripPoint {K : Type} [LinearOrderedField K] (sqrt : K → K)
    (fp : vec2d K) (vp : K) (tx tv : vec2d K) : vec2d K :=
  let vt := tv.len sqrt
  let cg := tv.x / vt
  let sg := tv.y / vt
  let x := (tx.x - fp.x) * cg + (tx.y - fp.y) * sg
  let y := (tx.y - fp.y) * cg - (tx.x - fp.x) * sg
  let tmp := vp * vp - vt * vt
  let fx := x + vt * (x * vt + sqrt (x * x * vp * vp + y * y * tmp)) / tmp
  ⟨fp.x + fx * cg - y * sg, fp.y + fx * sg + y * cg⟩

/-- The method `World::CalcOutstrip`: the boolean result and the value left in `out_fake`.
The arithmetic is that of an ordered field `K` with a square root `sqrt`; the
world bounds `_sx`, `_sy` are read from the world. -/
def CalcOutstrip {K : Type} [LinearOrderedField K] (sqrt : K → K) (w : World)
    (fp : vec2d K) (vp : K) (tx tv : vec2d K) : Bool × vec2d K :=
  let vt := tv.len sqrt
  if vt ≥ vp ∨ vt < 1 / 10 ^ 7 then (false, tx)
  else
    let p := outstripPoint sqrt fp vp tx tv
    (true, ⟨max 0 (min (w._sx : K) p.x), max 0 (min (w._sy : K) p.y)⟩)

/-! ## Persistence: `Serialize` and `Unserialize` -/

/-- The header of a save file, `struct SaveHeader`. -/
structure SaveHeader where
  dwVersion : Nat
  nightmode : Bool
  timelimit : ℚ
  fraglimit : Int
  time : ℚ
  width : Int
  height : Int
  theme : String
deriving DecidableEq, Repr

/-- What a save stream is made of: a block of `sizeof(SaveHeader)` bytes, or a
word (an `ObjectType`, or a word of object contents or of a Lua blob). -/
inductive Chunk where
  | header (sh : SaveHeader)
  | word (n : Nat)
deriving DecidableEq, Repr

/-- The contents of an `FS::Stream`: when reading, what is left to read; when
writing, what has been written. -/
abbrev Stream := List Chunk

/-- A `SaveFile`: its stream, the flag `loading` of its constructor and the
pointer identity table, in order of registration. -/
structure SaveFile where
  stream : Stream
  loading : Bool
  pointers : List ObjId
deriving DecidableEq, Repr

/-- A call into code outside `World.cpp` that works on the world and the save
file and may throw; the error carries the message and the world left behind. -/
abbrev SaveCall := World → SaveFile → Except (String × World) (World × SaveFile)

/-- The constants of headers that are not among the sources and the code
outside `World.cpp` that `Serialize` and `Unserialize` call: the type registry
`RTTypes`, the virtual `GC_Object::Serialize` (which reads or writes according
to `f.loading`) and the four protected Lua calls. -/
structure SaveEnv where
  VERSION : Nat
  CELL_SIZE : Int
  LOCATION_SIZE : Int
  INVALID_OBJECT_TYPE : ObjectType
  IsRegistered : ObjectType → Bool
  ObjSerialize : GC_Object → SaveCall
  read_user : SaveCall
  read_queue : SaveCall
  write_user : SaveCall
  write_queue : SaveCall

/-- The call `stream->Read(&sh, sizeof(SaveHeader), 1)`: a header is read when the stream
begins with one; otherwise the stream ends before a full header. -/
def readHeader : Stream → Option (SaveHeader × Stream)
  | .header sh :: rest => some (sh, rest)
  | _ => none

/-- An identity no live object has (the address of a new allocation). -/
def freshId (w : World) : ObjId := (w.objects.map (fun o => o.id)).foldr max 0 + 1

/-- Modelled from the spec: `RTTypes::CreateFromFile`, which is not among the
sources; the type-registry factory constructs one entity of the given type tag,
which joins the end of the "all objects" list, and yields nothing for a tag
that is not registered. -/
def CreateFromFile (E : SaveEnv) (w : World) (type : ObjectType) : Option (ObjId × World) :=
  if E.IsRegistered type then
    some (freshId w, { w with objects := w.objects ++ [⟨freshId w, type⟩] })
  else none

/-- Modelled from the spec: `SaveFile::RegPointer`, which is not among the
sources; registers the entity in the pointer identity table, at the next
position. -/
def RegPointer (pointers : List ObjId) (o : ObjId) : List ObjId := pointers ++ [o]

/-- The loop "fill pointers cache" of `Unserialize`.  `f.Serialize(type)` reads
the next word of the stream and throws when there is none; the loop ends at the
word `INVALID_OBJECT_TYPE`. -/
def fillPointers (E : SaveEnv) :
    Stream → List ObjId → World → Except (String × World) (SaveFile × World)
  | .word type :: rest, pointers, w =>
    if type = E.INVALID_OBJECT_TYPE then .ok (⟨rest, true, pointers⟩, w)
    else
      match CreateFromFile E w type with
      | some (obj, w1) => fillPointers E rest (RegPointer pointers obj) w1
      | none => .error ("Load error: unknown object type", w)
  | _, _, w => .error ("unexpected end of file", w)

/-- The loops "read / write objects contents in the same order as pointers":
`Serialize(*this, f)` on every object of `LIST_objects`, in list order. -/
def serializeObjects (E : SaveEnv) : List GC_Object → SaveCall
  | [], w, f => .ok (w, f)
  | o :: rest, w, f =>
    match E.ObjSerialize o w f with
    | .ok (w1, f1) => serializeObjects E rest w1 f1
    | .error e => .error e

/-- The body of the `try` block of `Unserialize`.  The calls that apply the
theme, update the player skins and lay out the cameras act on the renderer and
change nothing here. -/
def UnserializeTry (E : SaveEnv) (stream : Stream) (w : World) :
    Except (String × World) World :=
  match readHeader stream with
  | none => .error ("unexpected end of file", w)
  | some (sh, rest) =>
    if E.VERSION ≠ sh.dwVersion then .error ("invalid version", w)
    else
      let w1 := { w with g_conf := ⟨sh.timelimit, sh.fraglimit, sh.nightmode⟩ }
      let w2 := { w1 with _time := sh.time }
      let w3 := Resize E.CELL_SIZE E.LOCATION_SIZE sh.width sh.height w2
      match fillPointers E rest [] w3 with
      | .error e => .error e
      | .ok (f, w4) =>
        match serializeObjects E w4.objects w4 f with
        | .error e => .error e
        | .ok (w5, f1) =>
          match E.read_user w5 f1 with
          | .error (msg, w6) => .error ("[pluto read user] " ++ msg, w6)
          | .ok (w6, f2) =>
            match E.read_queue w6 f2 with
            | .error (msg, w7) => .error ("[pluto read queue] " ++ msg, w7)
            | .ok (w7, _) => .ok { w7 with _infoTheme := sh.theme }

/-- The method `World::Unserialize`: the world it leaves and the `std::runtime_error` it
propagates to the caller, if any.  `catch( const std::runtime_error& )` runs
`Clear()` and throws again. -/
def Unserialize (E : SaveEnv) (stream : Stream) (w : World) : World × Option String :=
  match UnserializeTry E stream w with
  | .ok w1 => (w1, none)
  | .error (msg, w1) => (Clear w1, some msg)

/-- The assertions `Unserialize` checks on entry. -/
def Unserialize_assert (w : World) : Bool := IsSafeMode w && IsEmpty w

/-- The header `Serialize` writes. -/
def saveHeader (E : SaveEnv) (w : World) : SaveHeader where
  theme := w._infoTheme
  dwVersion := E.VERSION
  fraglimit := w.g_conf.sv_fraglimit
  timelimit := w.g_conf.sv_timelimit
  nightmode := w.g_conf.sv_nightmode
  time := w._time
  width := Int.tdiv (toInt w._sx) E.CELL_SIZE
  height := Int.tdiv (toInt w._sy) E.CELL_SIZE

/-- The loop "pointers to game objects" of `Serialize`: for every object of
`LIST_objects`, write its type and register its pointer. -/
def writePointers : List GC_Object → SaveFile → SaveFile
  | [], f => f
  | object :: rest, f =>
    writePointers rest
      { f with stream := f.stream ++ [.word object.type]
               pointers := RegPointer f.pointers object.id }

/-- The first part of `Serialize`, up to and including the terminator: the
header, the type of every object, and `INVALID_OBJECT_TYPE`. -/
def savePointers (E : SaveEnv) (w : World) : SaveFile :=
  let f := writePointers w.objects ⟨[.header (saveHeader E w)], false, []⟩
  { f with stream := f.stream ++ [.word E.INVALID_OBJECT_TYPE] }

/-- The method `World::Serialize`: the world and the file it leaves, or the
`std::runtime_error` it throws. -/
def Serialize (E : SaveEnv) (w : World) : Except (String × World) (World × SaveFile) :=
  match serializeObjects E w.objects w (savePointers E w) with
  | .error e => .error e
  | .ok (w1, f1) =>
    match E.write_user w1 f1 with
    | .error (msg, w2) => .error ("[pluto write user] " ++ msg, w2)
    | .ok (w2, f2) =>
      match E.write_queue w2 f2 with
      | .error (msg, w3) => .error ("[pluto write queue] " ++ msg, w3)
      | .ok r => .ok r

/-- The assertion `Serialize` checks on entry: `assert(IsSafeMode())`. -/
def Serialize_assert (w : World) : Bool := IsSafeMode w

/-- The value of a map attribute. -/
inductive AttrValue where
  | str (s : String)
  | int (i : Int)
deriving DecidableEq, Repr

/-- The map attributes `World::Export` sets, in order ("map info"). -/
def ExportMapAttributes (E : SaveEnv) (w : World) : List (String × AttrValue) :=
  [("type", .str "deathmatch"),
   ("version", .str (toString E.VERSION)),
   ("width", .int (Int.tdiv (toInt w._sx) E.CELL_SIZE)),
   ("height", .int (Int.tdiv (toInt w._sy) E.CELL_SIZE)),
   ("author", .str w._infoAuthor),
   ("desc", .str w._infoDesc),
   ("link-url", .str w._infoUrl),
   ("e-mail", .str w._infoEmail),
   ("theme", .str w._infoTheme),
   ("on_init", .str w._infoOnInit)]

/-- A call that throws nothing and changes nothing. -/
def SaveCall.skip : SaveCall := fun w f => .ok (w, f)

/-- An environment with version 1, cells of 32 and locations of 128 units, the
type tags below 10 registered, and objects and Lua blobs without contents. -/
def SaveEnv.plain : SaveEnv where
  VERSION := 1
  CELL_SIZE := 32
  LOCATION_SIZE := 128
  INVALID_OBJECT_TYPE := 0xffffffff
  IsRegistered := fun t => decide (t < 10)
  ObjSerialize := fun _ => SaveCall.skip
  read_user := SaveCall.skip
  read_queue := SaveCall.skip
  write_user := SaveCall.skip
  write_queue := SaveCall.skip

/-- The called code leaves the quantity `π` of the world as it is, whether it
returns or throws. -/
def SaveCall.Keeps {α : Type} (π : World → α) (c : SaveCall) : Prop :=
  ∀ w f, match c w f with
    | .ok (w1, _) => π w1 = π w
    | .error (_, w1) => π w1 = π w

/-- All the code `Serialize` and `Unserialize` call leaves `π` as it is. -/
structure SaveEnv.Keeps {α : Type} (E : SaveEnv) (π : World → α) : Prop where
  obj : ∀ o, SaveCall.Keeps π (E.ObjSerialize o)
  read_user : SaveCall.Keeps π E.read_user
  read_queue : SaveCall.Keeps π E.read_queue
  write_user : SaveCall.Keeps π E.write_user
  write_queue : SaveCall.Keeps π E.write_queue

/-- A header of the version of `SaveEnv.plain`, for a 10x10 world at time 3 with
a time limit of 5, a frag limit of 7 and night mode. -/
def goodHeader : SaveHeader := ⟨1, true, 5, 7, 3, 10, 10, "theme"⟩

/-- A header of another version. -/
def oldHeader : SaveHeader := ⟨2, true, 5, 7, 3, 10, 10, "theme"⟩

/-- A save stream whose second type tag, 99, is not registered in
`SaveEnv.plain`. -/
def badStream : Stream := [.header goodHeader, .word 3, .word 99, .word 0xffffffff]

/-- A world of 40 x 40 cells, 1280 x 1280 units. -/
def wideWorld : World := Resize 32 128 40 40 (World.new Config.noLimits)

/-- The part of the world state that a load takes from the header and that
`Clear` does not touch: the dimensions, the size of the location grid and the
game rules. -/
def headerState (w : World) : ℚ × ℚ × Int × Int × Config :=
  (w._sx, w._sy, w._locationsX, w._locationsY, w.g_conf)

/-- The objects the load loop constructs for a list of registered type tags. -/
def created (w : World) : List ObjectType → List GC_Object
  | [] => []
  | t :: ts => ⟨freshId w, t⟩ :: created { w with objects := w.objects ++ [⟨freshId w, t⟩] } ts

/-! ## Float draws -/

/-- The method `World::net_frand`:
`return (float) net_rand() / (float) RAND_MAX * max;` -/
def net_frand (bits RAND_MAX : Nat) (max : ℚ) (w : World) : ℚ × World :=
  let r := net_rand bits RAND_MAX w
  ((r.1 : ℚ) / (RAND_MAX : ℚ) * max, r.2)

/-- The angle `net_frand(PI2)` that `World::net_vrand` draws and turns into a
direction; `PI2` is a constant of a header that is not among the sources. -/
def net_vrand_angle (bits RAND_MAX : Nat) (PI2 : ℚ) (w : World) : ℚ × World :=
  net_frand bits RAND_MAX PI2 w

/-- A fresh world seeded with 30091, whose next integer draw is `RAND_MAX`. -/
def topSeedWorld : World := Seed 32 30091 (World.new Config.noLimits)

/-! ## Parts of the intercept computation -/

/-- The divisor `tmp = vp*vp - vt*vt` of `CalcOutstrip`. -/
def outstripDivisor {K : Type} [LinearOrderedField K] (sqrt : K → K)
    (vp : K) (tv : vec2d K) : K :=
  let vt := tv.len sqrt
  vp * vp - vt * vt

/-- The quantity `x*x * vp*vp + y*y * tmp` under the square root of
`CalcOutstrip`. -/
def outstripRadicand {K : Type} [LinearOrderedField K] (sqrt : K → K)
    (fp : vec2d K) (vp : K) (tx tv : vec2d K) : K :=
  let vt := tv.len sqrt
  let cg := tv.x / vt
  let sg := tv.y / vt
  let x := (tx.x - fp.x) * cg + (tx.y - fp.y) * sg
  let y := (tx.y - fp.y) * cg - (tx.x - fp.x) * sg
  let tmp := vp * vp - vt * vt
  x * x * vp * vp + y * y * tmp

/-! ## Ray-trace selectors -/

/-- The sum of two vectors, `operator +` of `vec2d`. -/
instance {K : Type} [Add K] : Add (vec2d K) := ⟨fun a b => ⟨a.x + b.x, a.y + b.y⟩⟩

/-- A vector times a number, `operator *` of `vec2d`. -/
instance {K : Type} [Mul K] : HMul (vec2d K) K (vec2d K) := ⟨fun a k => ⟨a.x * k, a.y * k⟩⟩

/-- A vector divided by a number, `operator /` of `vec2d`. -/
instance {K : Type} [Div K] : HDiv (vec2d K) K (vec2d K) := ⟨fun a k => ⟨a.x / k, a.y / k⟩⟩

/-- The arguments of one call `Select(obj, norm, enter, exit)`. -/
structure SelectCall (K : Type) where
  obj : ObjId
  norm : vec2d K
  enter : K
  exit : K

/-- The record `CollisionPoint` that `TraceAll` collects. -/
structure CollisionPoint (K : Type) where
  obj : ObjId
  normal : vec2d K
  enter : K
  exit : K

/-- Modelled from the spec: `World::RayTrace` of `World.inl`, which is not
among the sources; for each rigid body found along the segment it invokes
`selector.Select(body, surfaceNormal, enterFraction, exitFraction)`, and the
selector returns whether to stop early.  The bodies it finds, in traversal
order, are the list `hits`; `RayTraceCalls` below produces this list from the
bodies of the visited cells and the segment the selector holds. -/
def RayTrace {K S : Type} (Select : S → SelectCall K → Bool × S) :
    List (SelectCall K) → S → S
  | [], s => s
  | c :: rest, s =>
    let r := Select s c
    if r.1 then r.2 else RayTrace Select rest r.2

/-- The selector `struct SelectNearest` of `TraceNearest`.  A null pointer is
`none`. -/
structure SelectNearest (K : Type) where
  ignore : Option ObjId
  x0 : vec2d K
  lineCenter : vec2d K
  lineDirection : vec2d K
  result : Option ObjId
  resultPos : vec2d K
  resultNorm : vec2d K

/-- The method `SelectNearest::Select`. -/
def SelectNearest.Select {K : Type} [Field K] (s : SelectNearest K) (c : SelectCall K) :
    Bool × SelectNearest K :=
  if s.ignore ≠ some c.obj then
    let lineDirection := s.lineDirection * (c.enter + 1 / 2)
    (false,
      { s with
        result := some c.obj
        resultPos := s.lineCenter + s.lineDirection * c.enter
        resultNorm := c.norm
        lineDirection := lineDirection
        lineCenter := s.x0 + lineDirection / (2 : K) })
  else (false, s)

/-- The selector as `TraceNearest` sets it up before the ray trace.  The
constructor sets `result` only; `uninit` is what `resultPos` and `resultNorm`
happen to hold. -/
def SelectNearest.start {K : Type} [Field K] (uninit : vec2d K) (ignore : Option ObjId)
    (x0 a : vec2d K) : SelectNearest K where
  ignore := ignore
  x0 := x0
  lineCenter := x0 + a / (2 : K)
  lineDirection := a
  result := none
  resultPos := uninit
  resultNorm := uninit

/-- The method `World::TraceNearest`, without the debug line.  The grid and
the ray trace over it are the list `hits`; the output pointers `ht` and `norm`
are `none` when null and otherwise hold the value they point to.  The result is
the returned body and the values behind `ht` and `norm` afterwards. -/
def TraceNearest {K : Type} [Field K] (hits : List (SelectCall K)) (uninit : vec2d K)
    (ignore : Option ObjId) (x0 a : vec2d K) (ht norm : Option (vec2d K)) :
    Option ObjId × Option (vec2d K) × Option (vec2d K) :=
  let selector := RayTrace SelectNearest.Select hits (SelectNearest.start uninit ignore x0 a)
  match selector.result with
  | some _ =>
    (selector.result, ht.map (fun _ => selector.resultPos),
      norm.map (fun _ => selector.resultNorm))
  | none => (selector.result, ht, norm)

/-- The selector `struct SelectAll` of `TraceAll`; `result` is the vector the
caller passed by reference. -/
structure SelectAll (K : Type) where
  lineCenter : vec2d K
  lineDirection : vec2d K
  result : List (CollisionPoint K)

/-- The method `SelectAll::Select`. -/
def SelectAll.Select {K : Type} (s : SelectAll K) (c : SelectCall K) : Bool × SelectAll K :=
  (false, { s with result := s.result ++ [⟨c.obj, c.norm, c.enter, c.exit⟩] })

/-- The method `World::TraceAll`: the contents of `result` afterwards. -/
def TraceAll {K : Type} [Field K] (hits : List (SelectCall K)) (x0 a : vec2d K)
    (result : List (CollisionPoint K)) : List (CollisionPoint K) :=
  (RayTrace SelectAll.Select hits ⟨x0 + a / (2 : K), a, result⟩).result

/-- The search segment of the selector is anchored at the origin:
`lineCenter = x0 + lineDirection / 2`. -/
def SelectNearest.Anchored {K : Type} [Field K] (s : SelectNearest K) : Prop :=
  s.lineCenter = s.x0 + s.lineDirection / (2 : K)

/-- Two bodies on a segment: body 1 enters at -2/5, body 2 at 1/5. -/
def twoHits : List (SelectCall ℚ) :=
  [⟨1, ⟨0, 1⟩, -2 / 5, -1 / 5⟩, ⟨2, ⟨0, 1⟩, 1 / 5, 2 / 5⟩]

/-- The outcome of testing a body against a segment when they meet: the surface
normal and the enter and exit fractions that are handed to `Select`. -/
structure LineHit (K : Type) where
  norm : vec2d K
  enter : K
  exit : K

/-- Modelled from the spec: the calls of `Select` that `World::RayTrace` of
`World.inl` makes when the rigid bodies of the cells it visits are, in
traversal order, `bodies`.  Each body is tested against the segment that the
selector reports at that moment through `GetCenter()` and `GetDirection()`;
the test, which is not among the sources either, is the parameter `collide`
(body, segment centre, segment direction).  A body that the segment meets is
presented to `Select`, and the walk ends when `Select` asks to stop. -/
def RayTraceCalls {K S : Type} (collide : ObjId → vec2d K → vec2d K → Option (LineHit K))
    (GetCenter GetDirection : S → vec2d K) (Select : S → SelectCall K → Bool × S) :
    List ObjId → S → List (SelectCall K)
  | [], _ => []
  | b :: rest, s =>
    match collide b (GetCenter s) (GetDirection s) with
    | none => RayTraceCalls collide GetCenter GetDirection Select rest s
    | some h =>
      if (Select s ⟨b, h.norm, h.enter, h.exit⟩).1 then [⟨b, h.norm, h.enter, h.exit⟩]
      else
        ⟨b, h.norm, h.enter, h.exit⟩
          :: RayTraceCalls collide GetCenter GetDirection Select rest
              (Select s ⟨b, h.norm, h.enter, h.exit⟩).2

/-- The method `SelectNearest::GetCenter`. -/
def SelectNearest.GetCenter {K : Type} (s : SelectNearest K) : vec2d K := s.lineCenter

/-- The method `SelectNearest::GetDirection`. -/
def SelectNearest.GetDirection {K : Type} (s : SelectNearest K) : vec2d K := s.lineDirection

/-- The method `SelectAll::GetCenter`. -/
def SelectAll.GetCenter {K : Type} (s : SelectAll K) : vec2d K := s.lineCenter

/-- The method `SelectAll::GetDirection`. -/
def SelectAll.GetDirection {K : Type} (s : SelectAll K) : vec2d K := s.lineDirection

/-- The calls of `Select` that the ray trace of `TraceNearest` makes. -/
def nearestCalls {K : Type} [Field K] (collide : ObjId → vec2d K → vec2d K → Option (LineHit K))
    (bodies : List ObjId) (uninit : vec2d K) (ignore : Option ObjId) (x0 a : vec2d K) :
    List (SelectCall K) :=
  RayTraceCalls collide SelectNearest.GetCenter SelectNearest.GetDirection
    SelectNearest.Select bodies (SelectNearest.start uninit ignore x0 a)

/-- The calls of `Select` that the ray trace of `TraceAll` makes. -/
def allCalls {K : Type} [Field K] (collide : ObjId → vec2d K → vec2d K → Option (LineHit K))
    (bodies : List ObjId) (x0 a : vec2d K) (result : List (CollisionPoint K)) :
    List (SelectCall K) :=
  RayTraceCalls collide SelectAll.GetCenter SelectAll.GetDirection
    SelectAll.Select bodies ⟨x0 + a / (2 : K), a, result⟩

/-- A sample intersection test: body `b` is the wall `x = wallAt b`, which a
segment meets in one point, where it enters and exits. -/
def wallCollide (wallAt : ObjId → ℚ) (b : ObjId) (c d : vec2d ℚ) : Option (LineHit ℚ) :=
  if d.x = 0 then none
  else if -1 / 2 ≤ (wallAt b - c.x) / d.x ∧ (wallAt b - c.x) / d.x ≤ 1 / 2 then
    some ⟨⟨-1, 0⟩, (wallAt b - c.x) / d.x, (wallAt b - c.x) / d.x⟩
  else none

/-- Walls: body 1 at `x = 1`, every other body at `x = 7`. -/
def wallAt (b : ObjId) : ℚ := if b = 1 then 1 else 7

/-- Walls that all stand at `x = 3`. -/
def wallTie (_b : ObjId) : ℚ := 3

/-! ## Theorems -/

theorem drawN_from (bits RM s : Nat) (n : Nat) :
    ∀ (i : Nat) (w : World), w._seed = lcgSeq bits s i →
      (drawN bits RM n w).1
          = (List.range n).map (fun k => (lcgSeq bits s (i + k + 1) >>> 16) &&& RM)
        ∧ (drawN bits RM n w).2._seed = lcgSeq bits s (i + n) := by
  induction n with
  | zero => intro i w h; simpa [drawN] using h
  | succ n ih =>
    intro i w h
    have h1 : (net_rand bits RM w).2._seed = lcgSeq bits s (i + 1) := by
      simp [net_rand, lcgSeq, h]
    obtain ⟨ih1, ih2⟩ := ih (i + 1) _ h1
    refine ⟨?_, ?_⟩
    · rw [List.range_succ_eq_map]
      simp only [drawN, List.map_cons, List.map_map]
      rw [ih1]
      refine congrArg₂ List.cons ?_ (List.map_congr_left ?_)
      · simp [net_rand, lcgSeq, h]
      · intro k _
        have e : i + 1 + k + 1 = i + (k + 1) + 1 := by omega
        simp only [Function.comp, Nat.succ_eq_add_one, e]
    · simp only [drawN]
      rw [ih2]
      have e : i + 1 + n = i + (n + 1) := by omega
      rw [e]

/-- C1: after `Seed(s)` the draws of `net_rand` are `(s_k >> 16) & RAND_MAX` for
k = 1, 2, ... along the recurrence `s_{i+1} = s_i * 214013 + 2531011` in the
seed's word arithmetic, the seed stored after `n` draws is `s_n`, every draw lies
in `0..RAND_MAX`, the drawn sequence does not depend on anything but `s` and the
number of calls, and `Seed(1)` with a 32-bit seed and `RAND_MAX = 0x7fff` draws
41, 18467, 6334. -/
theorem net_rand_sequence (bits RM s n : Nat) (w : World) :
    (drawN bits RM n (Seed bits s w)).1
        = (List.range n).map (fun k => (lcgSeq bits s (k + 1) >>> 16) &&& RM)
      ∧ (drawN bits RM n (Seed bits s w)).2._seed = lcgSeq bits s n
      ∧ (∀ r ∈ (drawN bits RM n (Seed bits s w)).1, r ≤ RM)
      ∧ (∀ w2 : World, (drawN bits RM n (Seed bits s w2)).1
            = (drawN bits RM n (Seed bits s w)).1)
      ∧ (drawN 32 0x7fff 3 (Seed 32 1 w)).1 = [41, 18467, 6334] := by
  have key : ∀ (b R t m : Nat) (v : World),
      (drawN b R m (Seed b t v)).1
          = (List.range m).map (fun k => (lcgSeq b t (k + 1) >>> 16) &&& R)
        ∧ (drawN b R m (Seed b t v)).2._seed = lcgSeq b t m := by
    intro b R t m v
    have h := drawN_from b R t m 0 (Seed b t v) (by simp [Seed, lcgSeq])
    simpa using h
  refine ⟨(key bits RM s n w).1, (key bits RM s n w).2, ?_, ?_, ?_⟩
  · intro r hr
    rw [(key bits RM s n w).1] at hr
    obtain ⟨k, _, rfl⟩ := List.mem_map.1 hr
    exact Nat.and_le_right
  · intro w2
    rw [(key bits RM s n w2).1, (key bits RM s n w).1]
  · rw [(key 32 0x7fff 1 3 w).1]
    rfl

/-! ### Arithmetic of the type `float` -/

theorem roundHalfEven_intCast (n : Int) : roundHalfEven (n : ℚ) = n := by
  unfold roundHalfEven
  rw [Int.floor_intCast, sub_self, if_pos (by norm_num)]

theorem roundHalfEven_near (q : ℚ) (n : Int) (h1 : (n : ℚ) - 1 / 2 < q)
    (h2 : q < (n : ℚ) + 1 / 2) : roundHalfEven q = n := by
  unfold roundHalfEven
  by_cases hq : (n : ℚ) ≤ q
  · have hf : ⌊q⌋ = n := Int.floor_eq_iff.2 ⟨hq, by linarith⟩
    rw [hf, if_pos (by linarith)]
  · push_neg at hq
    have hf : ⌊q⌋ = n - 1 := Int.floor_eq_iff.2 ⟨by push_cast; linarith, by push_cast; linarith⟩
    rw [hf, if_neg (by push_cast; linarith), if_pos (by push_cast; linarith)]
    ring

theorem log_two_eq (q : ℚ) (E : Int) (h1 : (2 : ℚ) ^ E ≤ |q|) (h2 : |q| < 2 ^ (E + 1)) :
    Int.log 2 |q| = E := by
  have hpos : (0 : ℚ) < |q| := lt_of_lt_of_le (by positivity) h1
  have a : E ≤ Int.log 2 |q| :=
    (Int.zpow_le_iff_le_log (by norm_num) hpos).1 (by simpa using h1)
  have b : Int.log 2 |q| < E + 1 :=
    (Int.lt_zpow_iff_log_lt (by norm_num) hpos).1 (by simpa using h2)
  omega

/-- The float nearest to `q`, for `q` in the binade of exponent `E`. -/
theorem toFloat_eq (q : ℚ) (E n : Int) (hE : -126 ≤ E) (h1 : (2 : ℚ) ^ E ≤ |q|)
    (h2 : |q| < 2 ^ (E + 1)) (hn : roundHalfEven (q / 2 ^ (E - 23)) = n) :
    toFloat q = (n : ℚ) * 2 ^ (E - 23) := by
  unfold toFloat
  rw [log_two_eq q E h1 h2, max_eq_left hE, hn]

/-- A number `m * 2 ^ e` with fewer than 24 significant bits and an exponent no
less than -149 is a `float`: rounding leaves it as it is. -/
theorem toFloat_repr (m e : Int) (hm : |m| < 2 ^ 24) (he : -149 ≤ e) :
    toFloat ((m : ℚ) * 2 ^ e) = (m : ℚ) * 2 ^ e := by
  by_cases h0 : m = 0
  · subst h0
    unfold toFloat
    simp only [Int.cast_zero, zero_mul, zero_div]
    have := roundHalfEven_intCast 0
    simp only [Int.cast_zero] at this
    rw [this]
    simp
  · have hq : |(m : ℚ) * 2 ^ e| = |(m : ℚ)| * 2 ^ e := by
      rw [abs_mul, abs_of_pos (by positivity : (0 : ℚ) < 2 ^ e)]
    have hm1 : (1 : ℚ) ≤ |(m : ℚ)| := by
      have : (1 : Int) ≤ |m| := Int.one_le_abs h0
      exact_mod_cast this
    have hm2 : |(m : ℚ)| < 2 ^ (24 : Int) := by
      have : ((|m| : Int) : ℚ) < ((2 ^ 24 : Int) : ℚ) := by exact_mod_cast hm
      rw [show ((2 : ℚ) ^ (24 : Int)) = ((2 ^ 24 : Int) : ℚ) by norm_num]
      rw [← Int.cast_abs]
      exact this
    have hpos : (0 : ℚ) < |(m : ℚ) * 2 ^ e| := by
      rw [hq]
      positivity
    have hL : Int.log 2 |(m : ℚ) * 2 ^ e| - 23 ≤ e := by
      have a : (2 : ℚ) ^ Int.log 2 |(m : ℚ) * 2 ^ e| ≤ |(m : ℚ) * 2 ^ e| := by
        simpa using Int.zpow_log_le_self (by norm_num : 1 < 2) hpos
      have b : |(m : ℚ) * 2 ^ e| < 2 ^ (24 + e) := by
        rw [hq, zpow_add₀ (by norm_num : (2 : ℚ) ≠ 0)]
        exact mul_lt_mul_of_pos_right hm2 (by positivity)
      have c := (zpow_lt_zpow_iff_right₀ (by norm_num : (1 : ℚ) < 2)).1 (lt_of_le_of_lt a b)
      omega
    have hE : max (Int.log 2 |(m : ℚ) * 2 ^ e|) (-126) - 23 ≤ e := by
      rcases max_cases (Int.log 2 |(m : ℚ) * 2 ^ e|) (-126) with ⟨h, _⟩ | ⟨h, _⟩
      · rw [h]; exact hL
      · rw [h]; omega
    unfold toFloat
    generalize max (Int.log 2 |(m : ℚ) * 2 ^ e|) (-126) - 23 = u at hE
    obtain ⟨d, hd⟩ := Int.eq_ofNat_of_zero_le (sub_nonneg.2 hE)
    have he' : e = u + d := by omega
    have hdiv : (m : ℚ) * 2 ^ e / 2 ^ u = ((m * 2 ^ d : Int) : ℚ) := by
      rw [he', zpow_add₀ (by norm_num : (2 : ℚ) ≠ 0), zpow_natCast]
      push_cast
      field_simp
      ring
    rw [hdiv, roundHalfEven_intCast, he', zpow_add₀ (by norm_num : (2 : ℚ) ≠ 0), zpow_natCast]
    push_cast
    ring

theorem fadd_repr (a b : ℚ) (m e : Int) (hm : |m| < 2 ^ 24) (he : -149 ≤ e)
    (h : a + b = (m : ℚ) * 2 ^ e) : fadd a b = a + b := by
  unfold fadd
  rw [h]
  exact toFloat_repr m e hm he

theorem toFloat_eq_pos (q : ℚ) (E n : Int) (hE : -126 ≤ E) (h1 : (2 : ℚ) ^ E ≤ q)
    (h2 : q < 2 ^ (E + 1)) (hn : roundHalfEven (q / 2 ^ (E - 23)) = n) :
    toFloat q = (n : ℚ) * 2 ^ (E - 23) := by
  have hpos : (0 : ℚ) < q := lt_of_lt_of_le (by positivity) h1
  exact toFloat_eq q E n hE (by rw [abs_of_pos hpos]; exact h1)
    (by rw [abs_of_pos hpos]; exact h2) hn

theorem fadd_zero_sixty : fadd 0 60 = 60 := by
  have h := fadd_repr 0 60 15 2 (by norm_num) (by norm_num) (by norm_num)
  simpa using h

theorem fadd_sixty_sixty : fadd 60 60 = 120 := by
  have h := fadd_repr 60 60 15 3 (by norm_num) (by norm_num) (by norm_num)
  rw [h]
  norm_num

theorem for_each_inv (P : World → Prop) (Q : Call × World → Prop)
    (list : World → List ObjId) (f : ObjId → World → World × Trace)
    (hf : ∀ o s, P s → P (f o s).1 ∧ ∀ e ∈ (f o s).2, Q e) :
    ∀ (l : List ObjId) (w : World), P w →
      P (for_each list f l w).1 ∧ ∀ e ∈ (for_each list f l w).2, Q e := by
  intro l
  induction l with
  | nil => intro w hw; simpa [for_each] using hw
  | cons o rest ih =>
    intro w hw
    simp only [for_each]
    split
    · obtain ⟨h1, h2⟩ := hf o w hw
      obtain ⟨h3, h4⟩ := ih _ h1
      refine ⟨h3, ?_⟩
      intro e he
      rcases List.mem_append.1 he with h | h
      · exact h2 e h
      · exact h4 e h
    · exact ih w hw

theorem for_each_keeps {α : Type} (π : World → α)
    (list : World → List ObjId) (f : ObjId → World → World × Trace)
    (hf : ∀ o s, π (f o s).1 = π s) (l : List ObjId) (w : World) :
    π (for_each list f l w).1 = π w :=
  (for_each_inv (fun s => π s = π w) (fun _ => True) list f
    (fun o s hs => ⟨(hf o s).trans hs, fun _ _ => trivial⟩) l w rfl).1

theorem stepVisit_keeps {α : Type} (B : Behaviour) (π : World → α) (hB : B.Keeps π)
    (dt : ℚ) (o : ObjId) (s : World) : π (stepVisit B dt o s).1 = π s := by
  unfold stepVisit
  by_cases h : isAlive o (B.TimeStepFixed o dt s) = true
  · simp only [h, if_true]
    exact (hB.float _ _ _).trans (hB.fixed _ _ _)
  · simp only [h, if_false]
    exact hB.fixed _ _ _

theorem stepPhysics_running (B : Behaviour) (dt : ℚ) (w0 : World)
    (h : w0._frozen = false) :
    stepPhysics B dt w0
      = ({ B.ProcessResponse dt (for_each (fun s => s.timestep) (stepVisit B dt)
              w0.timestep { w0 with _safeMode := false }).1 with _safeMode := true },
          (for_each (fun s => s.timestep) (stepVisit B dt)
              w0.timestep { w0 with _safeMode := false }).2
            ++ [(Call.ProcessResponse, (for_each (fun s => s.timestep) (stepVisit B dt)
              w0.timestep { w0 with _safeMode := false }).1)]) := by
  unfold stepPhysics
  rw [if_pos (by rw [h]; rfl)]

theorem stepPhysics_frozen (B : Behaviour) (dt : ℚ) (w0 : World)
    (h : w0._frozen = true) : stepPhysics B dt w0 = (w0, []) := by
  unfold stepPhysics
  rw [if_neg (by rw [h]; simp)]

theorem stepLimit_keeps {α : Type} (B : Behaviour) (π : World → α) (hB : B.Keeps π)
    (hl : ∀ (s : World) (b : Bool), π { s with _limitHit := b } = π s)
    (w : World) : π (stepLimit B w).1 = π w := by
  unfold stepLimit
  split
  · simp only [HitLimit]
    rw [hB.play, hl]
  · rfl

theorem stepSounds_keeps {α : Type} (B : Behaviour) (π : World → α) (hB : B.Keeps π)
    (w : World) : π (stepSounds B w).1 = π w :=
  for_each_keeps π _ _ (fun o s => hB.sound o s) _ _

theorem idle_keeps {α : Type} (π : World → α) : Behaviour.idle.Keeps π :=
  ⟨fun _ _ _ => rfl, fun _ _ _ => rfl, fun _ _ => rfl, fun _ _ => rfl, fun _ => rfl,
    fun _ _ => rfl⟩

/-- The constant `dt60` is the value of type `float` nearest to 1/60. -/
theorem toFloat_sixtieth : toFloat (1 / 60) = dt60 := by
  unfold dt60
  rw [toFloat_eq_pos _ (-6) 8947849 (by norm_num) (by norm_num) (by norm_num)
    (roundHalfEven_near _ _ (by norm_num) (by norm_num))]
  norm_num

/-- Why the statements about the elapsed time carry a hypothesis on the called
code: when the command queue that `Step` runs clears the world, the elapsed time
after `Step(1)` is 0. -/
theorem Step_clearing_time : (Step Behaviour.clearing 1 scenarioA).1._time = 0 := by
  simp [Step, stepPhysics, stepLimit, stepSounds, for_each, Behaviour.clearing,
    Behaviour.idle, Clear, killAll, scenarioA, Resize, World.new, Config.noLimits,
    Config.sv_timelimit_GetInt, toInt]

/-- C3 (the code departs from it): with a time limit of one minute, the first
`Step(60)` reaches the limit and calls `HitLimit` with the latch clear; the next
`Step(60)` calls `HitLimit` again, with the latch `_limitHit` already set, so
that `assert(!_limitHit)` fails and the limit event is triggered a second time. -/
theorem Step_hits_limit_again :
    ((runTrace Behaviour.idle [60, 60] limitWorld).filter
        (fun e => e.1 == Call.HitLimit)).map (fun e => HitLimit_assert e.2)
      = [true, false] := by
  simp [runTrace, Step, stepPhysics, stepLimit, stepSounds, for_each, HitLimit,
    HitLimit_assert, limitWorld, World.new, Behaviour.idle, Config.sv_timelimit_GetInt,
    toInt, fadd_zero_sixty, fadd_sixty_sixty]
  norm_num

theorem stepVisit_trace (B : Behaviour) (dt : ℚ) (o : ObjId) (s : World) :
    (stepVisit B dt o s).2 = passCalls B dt [(o, s)] := by
  unfold stepVisit passCalls
  by_cases h : isAlive o (B.TimeStepFixed o dt s) = true <;> simp [h]

theorem passCalls_cons (B : Behaviour) (dt : ℚ) (v : ObjId × World)
    (vs : List (ObjId × World)) :
    passCalls B dt (v :: vs) = passCalls B dt [v] ++ passCalls B dt vs := by
  simp [passCalls]

theorem stepVisit_state (B : Behaviour) (dt : ℚ) (o : ObjId) (s : World) :
    (stepVisit B dt o s).1 = visitEffect B dt o s := by
  unfold stepVisit visitEffect
  by_cases h : isAlive o (B.TimeStepFixed o dt s) = true <;> simp [h]

theorem for_each_stepVisit (B : Behaviour) (dt : ℚ) :
    ∀ (l : List ObjId) (w : World),
      for_each (fun s => s.timestep) (stepVisit B dt) l w
        = (passEnd B dt l w, passCalls B dt (passVisits B dt l w)) := by
  intro l
  induction l with
  | nil => intro w; simp [for_each, passEnd, passVisits, passCalls]
  | cons o rest ih =>
    intro w
    simp only [for_each, passEnd, passVisits]
    by_cases h : o ∈ w.timestep
    · simp only [h, if_true]
      rw [ih, stepVisit_state, stepVisit_trace, ← passCalls_cons]
    · simp only [h, if_false]
      exact ih w

theorem passVisits_mem (B : Behaviour) (dt : ℚ) :
    ∀ (l : List ObjId) (s : World), ∀ v ∈ passVisits B dt l s,
      v.1 ∈ v.2.timestep ∧ v.1 ∈ l := by
  intro l
  induction l with
  | nil => intro s v hv; simp [passVisits] at hv
  | cons o rest ih =>
    intro s v hv
    simp only [passVisits] at hv
    by_cases h : o ∈ s.timestep
    · simp only [h, if_true, List.mem_cons] at hv
      rcases hv with rfl | hv
      · exact ⟨h, List.mem_cons_self _ _⟩
      · exact ⟨(ih _ v hv).1, List.mem_cons_of_mem _ (ih _ v hv).2⟩
    · simp only [h, if_false] at hv
      exact ⟨(ih _ v hv).1, List.mem_cons_of_mem _ (ih _ v hv).2⟩

theorem visitEffect_keeps {α : Type} (B : Behaviour) (π : World → α) (hB : B.Keeps π)
    (dt : ℚ) (o : ObjId) (s : World) : π (visitEffect B dt o s) = π s := by
  rw [← stepVisit_state]
  exact stepVisit_keeps B π hB dt o s

theorem passVisits_all (B : Behaviour) (hB : B.Keeps World.timestep) (dt : ℚ) :
    ∀ (l : List ObjId) (s : World), (∀ o ∈ l, o ∈ s.timestep) →
      (passVisits B dt l s).map Prod.fst = l := by
  intro l
  induction l with
  | nil => intro s _; rfl
  | cons o rest ih =>
    intro s h
    simp only [passVisits, h o (List.mem_cons_self _ _), if_true, List.map_cons]
    rw [ih]
    intro o2 ho2
    rw [visitEffect_keeps B World.timestep hB]
    exact h o2 (List.mem_cons_of_mem _ ho2)

theorem stepLimit_trace (B : Behaviour) (w : World) :
    ∀ e ∈ (stepLimit B w).2, e = (Call.HitLimit, w) := by
  intro e he
  unfold stepLimit at he
  split at he
  · simpa using he
  · simp at he

theorem stepSounds_trace (B : Behaviour) (P : World → Prop)
    (hP : ∀ o s, P s → P (B.KillWhenFinished o s)) (w : World) (hw : P w) :
    ∀ e ∈ (stepSounds B w).2, (∃ o, e.1 = Call.KillWhenFinished o) ∧ P e.2 := by
  refine (for_each_inv P (fun e => (∃ o, e.1 = Call.KillWhenFinished o) ∧ P e.2) _ _ ?_ _ w hw).2
  intro o s hs
  refine ⟨hP o s hs, ?_⟩
  intro e he
  simp only [soundVisit, List.mem_singleton] at he
  subst he
  exact ⟨⟨o, rfl⟩, hs⟩

/-- C4: in a running world the calls of `Step` are, first, those of the pass
over the timestep list: the entities that were on the list are taken in list
order, each one that still is on the list when its turn comes is visited (so
the first one always is, and all are when no update changes the list), and
every visited entity receives `TimeStepFixed` and then, in the state its own
`TimeStepFixed` returned, `TimeStepFloat` exactly if it is alive in that state
(an entity that killed itself receives no float-step update); the pass is
followed by one `ProcessResponse`.  In a frozen world there is no such call at
all.  In both cases `RunCmdQueue` comes next, and nothing after it is a
fixed-step, float-step or response call. -/
theorem Step_update_order (B : Behaviour) (dt : ℚ) (w : World) :
    ∃ tail : Trace,
      (Step B dt w).2
          = (if w._frozen then []
              else
                passCalls B dt (passVisits B dt w.timestep
                    { { w with _time := fadd w._time dt } with _safeMode := false })
                  ++ [(Call.ProcessResponse, passEnd B dt w.timestep
                    { { w with _time := fadd w._time dt } with _safeMode := false })])
            ++ (Call.RunCmdQueue,
                if w._frozen then { w with _time := fadd w._time dt }
                else
                  { B.ProcessResponse dt (passEnd B dt w.timestep
                      { { w with _time := fadd w._time dt } with _safeMode := false })
                    with _safeMode := true }) :: tail
        ∧ (∀ e ∈ tail, e.1.inPass = false)
        ∧ (∀ v ∈ passVisits B dt w.timestep
              { { w with _time := fadd w._time dt } with _safeMode := false },
            v.1 ∈ v.2.timestep ∧ v.1 ∈ w.timestep)
        ∧ (∀ o rest, w.timestep = o :: rest →
            passVisits B dt w.timestep
                { { w with _time := fadd w._time dt } with _safeMode := false }
              = (o, { { w with _time := fadd w._time dt } with _safeMode := false })
                  :: passVisits B dt rest (visitEffect B dt o
                      { { w with _time := fadd w._time dt } with _safeMode := false }))
        ∧ (B.Keeps World.timestep →
            (passVisits B dt w.timestep
                { { w with _time := fadd w._time dt } with _safeMode := false }).map Prod.fst
              = w.timestep) := by
  refine ⟨(stepLimit B (B.RunCmdQueue dt
        (stepPhysics B dt { w with _time := fadd w._time dt }).1)).2
      ++ (stepSounds B (stepLimit B (B.RunCmdQueue dt
        (stepPhysics B dt { w with _time := fadd w._time dt }).1)).1).2,
    ?_, ?_, passVisits_mem B dt _ _, ?_, ?_⟩
  · unfold Step
    simp only [List.append_assoc, List.singleton_append]
    rcases Bool.eq_false_or_eq_true w._frozen with hf | hf
    · rw [stepPhysics_frozen B dt { w with _time := fadd w._time dt } hf, if_pos hf,
        if_pos hf]
      rfl
    · rw [stepPhysics_running B dt { w with _time := fadd w._time dt } hf,
        if_neg (by rw [hf]; simp), if_neg (by rw [hf]; simp)]
      have h := for_each_stepVisit B dt w.timestep
        { { w with _time := fadd w._time dt } with _safeMode := false }
      simp only [List.append_assoc, List.singleton_append]
      rw [show ({ w with _time := fadd w._time dt } : World).timestep = w.timestep from rfl,
        h]
      rfl
  · intro e he
    rcases List.mem_append.1 he with h | h
    · rw [stepLimit_trace B _ e h]; rfl
    · obtain ⟨⟨o, ho⟩, _⟩ := stepSounds_trace B (fun _ => True) (fun _ _ _ => trivial) _
        trivial e h
      rw [ho]; rfl
  · intro o rest h
    rw [h]
    simp only [passVisits]
    rw [if_pos (List.mem_cons_self _ _)]
  · intro hB
    exact passVisits_all B hB dt _ _ (fun o ho => ho)

/-- Witness of C4: the world with the single timestep object 1, in which no
called code changes anything: object 1 is visited. -/
theorem Step_update_order_witness :
    (passVisits Behaviour.idle 1 soloWorld.timestep
        { { soloWorld with _time := fadd soloWorld._time 1 } with _safeMode := false }).map
          Prod.fst
      = soloWorld.timestep := by
  obtain ⟨_, _, _, _, _, h⟩ := Step_update_order Behaviour.idle 1 soloWorld
  exact h (idle_keeps _)

/-- An example of the pass: the single object of `soloWorld` kills itself in its
fixed-step update and receives no float-step update; when it does nothing, it
receives both; in a frozen world it receives neither. -/
theorem Step_pass_examples :
    (Step Behaviour.suicidal 1 soloWorld).2.map Prod.fst
        = [Call.TimeStepFixed 1, Call.ProcessResponse, Call.RunCmdQueue]
      ∧ (Step Behaviour.idle 1 soloWorld).2.map Prod.fst
        = [Call.TimeStepFixed 1, Call.TimeStepFloat 1, Call.ProcessResponse, Call.RunCmdQueue]
      ∧ (Step Behaviour.idle 1 { soloWorld with _frozen := true }).2.map Prod.fst
        = [Call.RunCmdQueue] := by
  refine ⟨by decide, by decide, by decide⟩

/-- C5: when `_safeMode` is set on entry (as it is after construction) and the
called code does not write it, then during every call `Step` makes the flag is
clear exactly in the fixed-step, float-step and response calls and set in all
others; it is set when the command queue is drained, so `assert(_safeMode)`
holds, and when `Step` returns; and the entry assertions of `Clear` and of
`Serialize` (the `assert(IsSafeMode())` that `Unserialize`, `Import` and
`Export` check too) fail exactly in the calls made from inside the pass. -/
theorem Step_safeMode (B : Behaviour) (hB : B.Keeps World._safeMode)
    (dt : ℚ) (w : World) (hw : w._safeMode = true) :
    (∀ e ∈ (Step B dt w).2, IsSafeMode e.2 = !e.1.inPass)
      ∧ (∃ s, (Call.RunCmdQueue, s) ∈ (Step B dt w).2 ∧ s._safeMode = true)
      ∧ IsSafeMode (Step B dt w).1 = true
      ∧ (∀ e ∈ (Step B dt w).2, Clear_assert e.2 = false ↔ e.1.inPass = true)
      ∧ (∀ e ∈ (Step B dt w).2, Serialize_assert e.2 = false ↔ e.1.inPass = true) := by
  have hp : IsSafeMode (stepPhysics B dt { w with _time := fadd w._time dt }).1 = true
      ∧ ∀ e ∈ (stepPhysics B dt { w with _time := fadd w._time dt }).2,
          IsSafeMode e.2 = !e.1.inPass := by
    rcases Bool.eq_false_or_eq_true w._frozen with hf | hf
    · rw [stepPhysics_frozen B dt { w with _time := fadd w._time dt } hf]
      simpa [IsSafeMode] using hw
    · rw [stepPhysics_running B dt { w with _time := fadd w._time dt } hf]
      have h := for_each_inv (fun s => s._safeMode = false)
        (fun e => IsSafeMode e.2 = !e.1.inPass) (fun s => s.timestep) (stepVisit B dt)
        (by
          intro o s hs
          refine ⟨(stepVisit_keeps B _ hB dt o s).trans hs, ?_⟩
          intro e he
          rw [stepVisit_trace] at he
          simp only [passCalls, List.flatMap_cons, List.flatMap_nil, List.append_nil,
            List.mem_cons] at he
          rcases he with rfl | he
          · simpa [IsSafeMode, Call.inPass] using hs
          · split at he
            · simp only [List.mem_singleton] at he
              subst he
              simpa [IsSafeMode, Call.inPass] using (hB.fixed o dt s).trans hs
            · simp at he)
        w.timestep { { w with _time := fadd w._time dt } with _safeMode := false } rfl
      refine ⟨rfl, ?_⟩
      intro e he
      rcases List.mem_append.1 he with h1 | h1
      · exact h.2 e h1
      · simp only [List.mem_singleton] at h1
        subst h1
        simpa [IsSafeMode, Call.inPass] using h.1
  have h3 : (B.RunCmdQueue dt (stepPhysics B dt { w with _time := fadd w._time dt }).1)._safeMode
      = true := (hB.cmdQueue _ _).trans hp.1
  have h4 : (stepLimit B
      (B.RunCmdQueue dt (stepPhysics B dt { w with _time := fadd w._time dt }).1)).1._safeMode
      = true := (stepLimit_keeps B _ hB (fun _ _ => rfl) _).trans h3
  have hall : ∀ e ∈ (Step B dt w).2, IsSafeMode e.2 = !e.1.inPass := by
    intro e he
    unfold Step at he
    simp only [List.append_assoc, List.mem_append, List.mem_singleton] at he
    rcases he with h | rfl | h | h
    · exact hp.2 e h
    · simpa [Call.inPass] using hp.1
    · rw [stepLimit_trace B _ e h]
      simpa [IsSafeMode, Call.inPass] using h3
    · obtain ⟨⟨o, ho⟩, hs⟩ := stepSounds_trace B (fun s => s._safeMode = true)
        (fun o s hs => (hB.sound o s).trans hs) _ h4 e h
      rw [ho]
      simpa [IsSafeMode, Call.inPass] using hs
  refine ⟨hall, ⟨_, ?_, hp.1⟩, ?_, ?_, ?_⟩
  · unfold Step
    simp
  · unfold Step
    exact (stepSounds_keeps B _ hB _).trans h4
  · intro e he
    have := hall e he
    unfold Clear_assert
    rw [this]
    cases e.1.inPass <;> simp
  · intro e he
    have := hall e he
    unfold Serialize_assert
    rw [this]
    cases e.1.inPass <;> simp

/-- Witness of C5: the world with one timestep object, in which no called code
changes anything. -/
theorem Step_safeMode_witness :
    (∀ e ∈ (Step Behaviour.idle 1 soloWorld).2, IsSafeMode e.2 = !e.1.inPass)
      ∧ (∃ s, (Call.RunCmdQueue, s) ∈ (Step Behaviour.idle 1 soloWorld).2
          ∧ s._safeMode = true)
      ∧ IsSafeMode (Step Behaviour.idle 1 soloWorld).1 = true
      ∧ (∀ e ∈ (Step Behaviour.idle 1 soloWorld).2,
          Clear_assert e.2 = false ↔ e.1.inPass = true)
      ∧ (∀ e ∈ (Step Behaviour.idle 1 soloWorld).2,
          Serialize_assert e.2 = false ↔ e.1.inPass = true) :=
  Step_safeMode Behaviour.idle (idle_keeps _) 1 soloWorld rfl

/-! ### Persistence -/

theorem killAll_objects : ∀ (n : Nat) (w : World), w.objects.length ≤ n →
    (killAll n w).objects = [] := by
  intro n
  induction n with
  | zero =>
    intro w h
    simpa [killAll] using h
  | succ n ih =>
    intro w h
    unfold killAll
    cases hw : w.objects with
    | nil => simpa using hw
    | cons o t =>
      simp only []
      apply ih
      have h1 : (Kill o.id w).objects = t.filter (fun x => x.id != o.id) := by
        simp [Kill, hw]
      have h2 : (t.filter (fun x => x.id != o.id)).length ≤ t.length :=
        List.length_filter_le _ _
      rw [hw] at h
      simp only [List.length_cons] at h
      rw [h1]
      omega

theorem killAll_keeps {α : Type} (π : World → α) (hπ : ∀ o w, π (Kill o w) = π w) :
    ∀ (n : Nat) (w : World), π (killAll n w) = π w := by
  intro n
  induction n with
  | zero => intro w; rfl
  | succ n ih =>
    intro w
    unfold killAll
    cases w.objects with
    | nil => rfl
    | cons o t =>
      simp only []
      rw [ih, hπ]

theorem Clear_objects (w : World) : (Clear w).objects = [] := by
  unfold Clear
  exact killAll_objects _ w le_rfl

theorem Clear_headerState (w : World) : headerState (Clear w) = headerState w := by
  unfold Clear
  exact killAll_keeps headerState (fun _ _ => rfl) _ w

theorem Clear_reset (w : World) :
    (Clear w)._time = 0 ∧ (Clear w)._limitHit = false ∧ (Clear w)._frozen = false := by
  unfold Clear
  exact ⟨rfl, rfl, rfl⟩

theorem Unserialize_error_objects (E : SaveEnv) (stream : Stream) (w : World)
    (h : (Unserialize E stream w).2 ≠ none) :
    (Unserialize E stream w).1.objects = [] := by
  unfold Unserialize at h ⊢
  cases hT : UnserializeTry E stream w with
  | ok w1 => rw [hT] at h; exact absurd rfl h
  | error e => exact Clear_objects _

theorem created_types (ts : List ObjectType) : ∀ w : World, (created w ts).map (fun o => o.type) = ts := by
  induction ts with
  | nil => intro w; rfl
  | cons t ts ih => intro w; simp [created, ih]

theorem fillPointers_registered (E : SaveEnv) (t : ObjectType) (rest : Stream)
    (pointers : List ObjId) (w : World)
    (h1 : E.IsRegistered t = true) (h2 : t ≠ E.INVALID_OBJECT_TYPE) :
    fillPointers E (Chunk.word t :: rest) pointers w
      = fillPointers E rest (RegPointer pointers (freshId w))
          { w with objects := w.objects ++ [⟨freshId w, t⟩] } := by
  simp only [fillPointers, if_neg h2, CreateFromFile, h1, if_true]

theorem fillPointers_unknown (E : SaveEnv) (t : ObjectType) (rest : Stream)
    (pointers : List ObjId) (w : World)
    (h1 : E.IsRegistered t = false) (h2 : t ≠ E.INVALID_OBJECT_TYPE) :
    fillPointers E (Chunk.word t :: rest) pointers w
      = .error ("Load error: unknown object type", w) := by
  simp [fillPointers, if_neg h2, CreateFromFile, h1]

theorem fillPointers_end (E : SaveEnv) (rest : Stream)
    (pointers : List ObjId) (w : World) :
    fillPointers E (Chunk.word E.INVALID_OBJECT_TYPE :: rest) pointers w
      = .ok (⟨rest, true, pointers⟩, w) := by
  simp [fillPointers]

theorem fillPointers_tags (E : SaveEnv) (tail : Stream) :
    ∀ (tags : List ObjectType) (pointers : List ObjId) (w : World),
      (∀ x ∈ tags, E.IsRegistered x = true ∧ x ≠ E.INVALID_OBJECT_TYPE) →
      fillPointers E (tags.map Chunk.word ++ tail) pointers w
        = fillPointers E tail (pointers ++ (created w tags).map (fun o => o.id))
            { w with objects := w.objects ++ created w tags } := by
  intro tags
  induction tags with
  | nil => intro pointers w _; simp [created]
  | cons t ts ih =>
    intro pointers w h
    have ht := h t (List.mem_cons_self _ _)
    rw [List.map_cons, List.cons_append, fillPointers_registered E t _ _ _ ht.1 ht.2,
      ih _ _ (fun x hx => h x (List.mem_cons_of_mem _ hx))]
    simp [created, RegPointer]

theorem writePointers_eq : ∀ (objs : List GC_Object) (f : SaveFile),
    writePointers objs f
      = { f with stream := f.stream ++ objs.map (fun o => Chunk.word o.type)
                 pointers := f.pointers ++ objs.map (fun o => o.id) } := by
  intro objs
  induction objs with
  | nil => intro f; simp [writePointers]
  | cons o os ih =>
    intro f
    simp [writePointers, ih, RegPointer]

/-- C6: when every live entity has a type tag that the registry can construct
and that differs from `INVALID_OBJECT_TYPE`, the stream `Serialize` writes is
the header, the type tags of the entities of `LIST_objects` in list order, and
the terminator, and save registers the i-th entity at position i of the
identity table; the load loop of `Unserialize`, run on what follows the header
(with whatever `rest` was written after the terminator), succeeds, consumes
exactly those tags and the terminator, constructs one entity per tag, of that
tag and in that order, at the end of `LIST_objects`, and registers the i-th
constructed entity at position i of its identity table. -/
theorem save_load_tags (E : SaveEnv) (w w0 : World) (rest : Stream)
    (h : ∀ o ∈ w.objects, E.IsRegistered o.type = true ∧ o.type ≠ E.INVALID_OBJECT_TYPE) :
    (savePointers E w).stream
        = Chunk.header (saveHeader E w)
            :: ((w.objects.map fun o => Chunk.word o.type)
                ++ [Chunk.word E.INVALID_OBJECT_TYPE])
      ∧ (savePointers E w).pointers = w.objects.map (fun o => o.id)
      ∧ ∃ made : List GC_Object,
          fillPointers E (((savePointers E w).stream ++ rest).tail) [] w0
              = .ok (⟨rest, true, made.map (fun o => o.id)⟩,
                  { w0 with objects := w0.objects ++ made })
            ∧ made.map (fun o => o.type) = w.objects.map (fun o => o.type)
            ∧ (made.map (fun o => o.id)).length = (savePointers E w).pointers.length := by
  have hs : (savePointers E w).stream
      = Chunk.header (saveHeader E w)
          :: ((w.objects.map fun o => Chunk.word o.type)
              ++ [Chunk.word E.INVALID_OBJECT_TYPE]) := by
    simp [savePointers, writePointers_eq]
  have hp : (savePointers E w).pointers = w.objects.map (fun o => o.id) := by
    simp [savePointers, writePointers_eq]
  refine ⟨hs, hp, created w0 (w.objects.map fun o => o.type), ?_, created_types _ _, ?_⟩
  · rw [hs]
    simp only [List.cons_append, List.tail_cons, List.append_assoc, List.singleton_append]
    have e : (w.objects.map fun o => Chunk.word o.type)
        = (w.objects.map fun o => o.type).map Chunk.word := by
      simp [List.map_map, Function.comp]
    rw [e, fillPointers_tags E _ _ [] w0 (by
      intro x hx
      obtain ⟨o, ho, rfl⟩ := List.mem_map.1 hx
      exact h o ho), fillPointers_end]
    simp
  · rw [hp, List.length_map, List.length_map, ← List.length_map w.objects (fun o => o.type),
      ← created_types (w.objects.map fun o => o.type) w0, List.length_map, created_types]

/-- Witness of C6: the world with objects of the types 3 and 5, saved and read
back into a fresh world. -/
theorem save_load_tags_witness :
    (savePointers SaveEnv.plain duoWorld).stream
        = Chunk.header (saveHeader SaveEnv.plain duoWorld)
            :: ((duoWorld.objects.map fun o => Chunk.word o.type)
                ++ [Chunk.word SaveEnv.plain.INVALID_OBJECT_TYPE])
      ∧ (savePointers SaveEnv.plain duoWorld).pointers = duoWorld.objects.map (fun o => o.id)
      ∧ ∃ made : List GC_Object,
          fillPointers SaveEnv.plain
              (((savePointers SaveEnv.plain duoWorld).stream ++ []).tail) []
              (World.new Config.noLimits)
              = .ok (⟨[], true, made.map (fun o => o.id)⟩,
                  { World.new Config.noLimits with
                    objects := (World.new Config.noLimits).objects ++ made })
            ∧ made.map (fun o => o.type) = duoWorld.objects.map (fun o => o.type)
            ∧ (made.map (fun o => o.id)).length
                = (savePointers SaveEnv.plain duoWorld).pointers.length :=
  save_load_tags SaveEnv.plain duoWorld (World.new Config.noLimits) [] (by decide)

/-- C7: `Unserialize` fails when the stream ends before a full header, with
"unexpected end of file"; when the header's version differs from `VERSION`,
with "invalid version" and before anything of the header is applied or any
entity constructed (the world left is `Clear` of the world on entry, with its
dimensions and game rules); and when a type tag read before the terminator is
not registered, with "Load error: unknown object type".  Whenever an error is
propagated, the world has no entities afterwards. -/
theorem Unserialize_failures (E : SaveEnv) (w : World) :
    (∀ stream, readHeader stream = none →
        Unserialize E stream w = (Clear w, some "unexpected end of file"))
      ∧ (∀ sh rest, sh.dwVersion ≠ E.VERSION →
          Unserialize E (Chunk.header sh :: rest) w = (Clear w, some "invalid version")
            ∧ headerState (Clear w) = headerState w)
      ∧ (∀ sh (tags : List ObjectType) t rest, sh.dwVersion = E.VERSION →
          (∀ x ∈ tags, E.IsRegistered x = true ∧ x ≠ E.INVALID_OBJECT_TYPE) →
          E.IsRegistered t = false → t ≠ E.INVALID_OBJECT_TYPE →
          (Unserialize E (Chunk.header sh :: (tags.map Chunk.word ++ Chunk.word t :: rest)) w).2
            = some "Load error: unknown object type")
      ∧ (∀ stream, (Unserialize E stream w).2 ≠ none →
          (Unserialize E stream w).1.objects = []) := by
  refine ⟨?_, ?_, ?_, fun stream h => Unserialize_error_objects E stream w h⟩
  · intro stream h
    simp [Unserialize, UnserializeTry, h]
  · intro sh rest h
    refine ⟨?_, Clear_headerState w⟩
    simp [Unserialize, UnserializeTry, readHeader, Ne.symm h]
  · intro sh tags t rest hv htags ht1 ht2
    simp only [Unserialize, UnserializeTry, readHeader, hv, ne_eq, not_true_eq_false, if_false]
    rw [fillPointers_tags E _ tags [] _ htags, fillPointers_unknown E t rest _ _ ht1 ht2]

/-- Witness of C7: the empty stream, a header of another version, and a stream
with the unregistered type tag 99, read into a fresh world. -/
theorem Unserialize_failures_witness :
    Unserialize SaveEnv.plain [] (World.new Config.noLimits)
        = (Clear (World.new Config.noLimits), some "unexpected end of file")
      ∧ Unserialize SaveEnv.plain [Chunk.header oldHeader] (World.new Config.noLimits)
        = (Clear (World.new Config.noLimits), some "invalid version")
      ∧ (Unserialize SaveEnv.plain badStream (World.new Config.noLimits)).2
        = some "Load error: unknown object type"
      ∧ (Unserialize SaveEnv.plain badStream (World.new Config.noLimits)).1.objects = [] :=
  have h := Unserialize_failures SaveEnv.plain (World.new Config.noLimits)
  have h3 := h.2.2.1 goodHeader [3] 99 [Chunk.word 0xffffffff] rfl (by decide) (by decide)
    (by decide)
  ⟨h.1 [] rfl, (h.2.1 oldHeader [] (by decide)).1, h3,
    h.2.2.2 badStream (by rw [show badStream = Chunk.header goodHeader ::
      ([3].map Chunk.word ++ Chunk.word 99 :: [Chunk.word 0xffffffff]) from rfl, h3]; simp)⟩

theorem fillPointers_keeps {α : Type} (E : SaveEnv) (π : World → α)
    (hπ : ∀ (w : World) (l : List GC_Object), π { w with objects := l } = π w) :
    ∀ (stream : Stream) (pointers : List ObjId) (w : World),
      match fillPointers E stream pointers w with
      | .ok (_, w1) => π w1 = π w
      | .error (_, w1) => π w1 = π w := by
  intro stream
  induction stream with
  | nil => intro pointers w; simp [fillPointers]
  | cons c rest ih =>
    intro pointers w
    cases c with
    | header sh => simp [fillPointers]
    | word t =>
      by_cases h2 : t = E.INVALID_OBJECT_TYPE
      · subst h2
        rw [fillPointers_end]
      · rcases Bool.eq_false_or_eq_true (E.IsRegistered t) with h1 | h1
        · rw [fillPointers_registered E t rest pointers w h1 h2]
          have := ih (RegPointer pointers (freshId w))
            { w with objects := w.objects ++ [⟨freshId w, t⟩] }
          rw [hπ] at this
          exact this
        · rw [fillPointers_unknown E t rest pointers w h1 h2]

theorem serializeObjects_keeps {α : Type} (E : SaveEnv) (π : World → α)
    (hE : ∀ o, SaveCall.Keeps π (E.ObjSerialize o)) :
    ∀ objs : List GC_Object, SaveCall.Keeps π (serializeObjects E objs) := by
  intro objs
  induction objs with
  | nil => intro w f; simp [serializeObjects]
  | cons o os ih =>
    intro w f
    have h1 := hE o w f
    simp only [serializeObjects]
    cases hc : E.ObjSerialize o w f with
    | error e =>
      rw [hc] at h1
      exact h1
    | ok r =>
      rw [hc] at h1
      have h2 := ih r.1 r.2
      simp only [] at h1 ⊢
      cases hr : serializeObjects E os r.1 r.2 with
      | error e => rw [hr] at h2; exact h2.trans h1
      | ok r2 => rw [hr] at h2; exact h2.trans h1

/-- When the version matches, whatever the `try` block of `Unserialize` leaves
behind, by returning or by throwing, has the dimensions and the game rules of
the header, provided the called code does not change them. -/
theorem UnserializeTry_headerState (E : SaveEnv) (hE : E.Keeps headerState)
    (sh : SaveHeader) (rest : Stream) (w : World) (hv : sh.dwVersion = E.VERSION) :
    match UnserializeTry E (Chunk.header sh :: rest) w with
    | .ok w1 => headerState w1
        = headerState (Resize E.CELL_SIZE E.LOCATION_SIZE sh.width sh.height
            { w with g_conf := ⟨sh.timelimit, sh.fraglimit, sh.nightmode⟩ })
    | .error (_, w1) => headerState w1
        = headerState (Resize E.CELL_SIZE E.LOCATION_SIZE sh.width sh.height
            { w with g_conf := ⟨sh.timelimit, sh.fraglimit, sh.nightmode⟩ }) := by
  simp only [UnserializeTry, readHeader, hv, ne_eq, not_true_eq_false, if_false]
  have h1 := fillPointers_keeps E headerState (fun _ _ => rfl) rest []
    (Resize E.CELL_SIZE E.LOCATION_SIZE sh.width sh.height
      { { w with g_conf := ⟨sh.timelimit, sh.fraglimit, sh.nightmode⟩ } with _time := sh.time })
  cases hf : fillPointers E rest []
    (Resize E.CELL_SIZE E.LOCATION_SIZE sh.width sh.height
      { { w with g_conf := ⟨sh.timelimit, sh.fraglimit, sh.nightmode⟩ } with _time := sh.time })
    with
  | error e => rw [hf] at h1; exact h1
  | ok r =>
    rw [hf] at h1
    simp only [] at h1 ⊢
    have h2 := serializeObjects_keeps E headerState hE.obj r.2.objects r.2 r.1
    cases ho : serializeObjects E r.2.objects r.2 r.1 with
    | error e => rw [ho] at h2; exact h2.trans h1
    | ok r2 =>
      rw [ho] at h2
      simp only [] at h2 ⊢
      have h3 := hE.read_user r2.1 r2.2
      cases hu : E.read_user r2.1 r2.2 with
      | error e => rw [hu] at h3; exact h3.trans (h2.trans h1)
      | ok r3 =>
        rw [hu] at h3
        simp only [] at h3 ⊢
        have h4 := hE.read_queue r3.1 r3.2
        cases hq : E.read_queue r3.1 r3.2 with
        | error e => rw [hq] at h4; exact h4.trans (h3.trans (h2.trans h1))
        | ok r4 =>
          rw [hq] at h4
          exact h4.trans (h3.trans (h2.trans h1))

theorem skip_keeps {α : Type} (π : World → α) : SaveCall.Keeps π SaveCall.skip := by
  intro w f
  simp [SaveCall.skip]

theorem plain_keeps {α : Type} (π : World → α) : SaveEnv.plain.Keeps π :=
  ⟨fun _ => skip_keeps π, skip_keeps π, skip_keeps π, skip_keeps π, skip_keeps π⟩

theorem Unserialize_badStream :
    Unserialize SaveEnv.plain badStream (World.new Config.noLimits)
      = (Clear { Resize 32 128 10 10
            { { World.new Config.noLimits with g_conf := ⟨5, 7, true⟩ } with _time := 3 }
          with objects := [⟨1, 3⟩] },
        some "Load error: unknown object type") := by
  simp [Unserialize, UnserializeTry, readHeader, badStream, goodHeader, SaveEnv.plain,
    fillPointers, CreateFromFile, RegPointer, freshId, World.new, Resize]

/-- C8, as stated, fails: reading `badStream` into a fresh world fails on the
unknown type tag 99 after the header was accepted, and the world left behind
has the width 320 and the game rules of the header (time limit 5, frag limit 7,
night mode), where the world before the call had the width 0 and no limits. -/
theorem Unserialize_not_all_or_nothing :
    (Unserialize SaveEnv.plain badStream (World.new Config.noLimits)).2
        = some "Load error: unknown object type"
      ∧ (Unserialize SaveEnv.plain badStream (World.new Config.noLimits)).1._sx = 320
      ∧ (World.new Config.noLimits)._sx = 0
      ∧ (Unserialize SaveEnv.plain badStream (World.new Config.noLimits)).1.g_conf
        = ⟨5, 7, true⟩
      ∧ (World.new Config.noLimits).g_conf = ⟨0, 0, false⟩ := by
  rw [Unserialize_badStream]
  refine ⟨rfl, ?_, rfl, ?_, rfl⟩
  · have h := congrArg (fun t => t.1) (Clear_headerState { Resize 32 128 10 10
        { { World.new Config.noLimits with g_conf := ⟨5, 7, true⟩ } with _time := 3 }
      with objects := [⟨1, 3⟩] })
    simp only [headerState] at h
    rw [h]
    norm_num [Resize]
  · have h := congrArg (fun t => t.2.2.2.2) (Clear_headerState { Resize 32 128 10 10
        { { World.new Config.noLimits with g_conf := ⟨5, 7, true⟩ } with _time := 3 }
      with objects := [⟨1, 3⟩] })
    simp only [headerState] at h
    rw [h]
    rfl

/-- C8, amended: when a load fails after the header was accepted, the world
left behind has no entities, its elapsed time is 0 and its limit latch and
frozen flag are clear; the dimensions, the size of the location grid and the
game rules are those the header applied (they are not rolled back), provided
the code called during the load does not change them. -/
theorem Unserialize_failure_state (E : SaveEnv) (hE : E.Keeps headerState)
    (sh : SaveHeader) (rest : Stream) (w : World) (hv : sh.dwVersion = E.VERSION)
    (herr : (Unserialize E (Chunk.header sh :: rest) w).2 ≠ none) :
    (Unserialize E (Chunk.header sh :: rest) w).1.objects = []
      ∧ (Unserialize E (Chunk.header sh :: rest) w).1._time = 0
      ∧ (Unserialize E (Chunk.header sh :: rest) w).1._limitHit = false
      ∧ (Unserialize E (Chunk.header sh :: rest) w).1._frozen = false
      ∧ (Unserialize E (Chunk.header sh :: rest) w).1._sx = (sh.width : ℚ) * (E.CELL_SIZE : ℚ)
      ∧ (Unserialize E (Chunk.header sh :: rest) w).1._sy = (sh.height : ℚ) * (E.CELL_SIZE : ℚ)
      ∧ (Unserialize E (Chunk.header sh :: rest) w).1.g_conf
          = ⟨sh.timelimit, sh.fraglimit, sh.nightmode⟩
      ∧ headerState (Unserialize E (Chunk.header sh :: rest) w).1
          = headerState (Resize E.CELL_SIZE E.LOCATION_SIZE sh.width sh.height
              { w with g_conf := ⟨sh.timelimit, sh.fraglimit, sh.nightmode⟩ }) := by
  have hT := UnserializeTry_headerState E hE sh rest w hv
  have hobj := Unserialize_error_objects E _ w herr
  unfold Unserialize at herr hobj ⊢
  cases hc : UnserializeTry E (Chunk.header sh :: rest) w with
  | ok w1 => rw [hc] at herr; exact absurd rfl herr
  | error e =>
    rw [hc] at hT hobj
    simp only [] at hT hobj ⊢
    have hH : headerState (Clear e.2)
        = headerState (Resize E.CELL_SIZE E.LOCATION_SIZE sh.width sh.height
            { w with g_conf := ⟨sh.timelimit, sh.fraglimit, sh.nightmode⟩ }) :=
      (Clear_headerState e.2).trans hT
    refine ⟨hobj, (Clear_reset e.2).1, (Clear_reset e.2).2.1, (Clear_reset e.2).2.2,
      ?_, ?_, ?_, hH⟩
    · exact congrArg (fun t => t.1) hH
    · exact congrArg (fun t => t.2.1) hH
    · exact congrArg (fun t => t.2.2.2.2) hH

/-- Witness of C8, amended: `badStream` read into a fresh world. -/
theorem Unserialize_failure_state_witness :
    (Unserialize SaveEnv.plain badStream (World.new Config.noLimits)).1.objects = []
      ∧ (Unserialize SaveEnv.plain badStream (World.new Config.noLimits)).1._time = 0
      ∧ (Unserialize SaveEnv.plain badStream (World.new Config.noLimits)).1._sx
          = ((10 : Int) : ℚ) * ((32 : Int) : ℚ)
      ∧ (Unserialize SaveEnv.plain badStream (World.new Config.noLimits)).1.g_conf
          = ⟨5, 7, true⟩ :=
  have h := Unserialize_failure_state SaveEnv.plain (plain_keeps _) goodHeader
    [Chunk.word 3, Chunk.word 99, Chunk.word 0xffffffff] (World.new Config.noLimits) rfl
    (by
      rw [show (Chunk.header goodHeader :: [Chunk.word 3, Chunk.word 99, Chunk.word 0xffffffff])
        = badStream from rfl, Unserialize_badStream]
      simp)
  ⟨h.1, h.2.1, h.2.2.2.2.1, h.2.2.2.2.2.2.1⟩

theorem toInt_intCast (z : Int) : toInt (z : ℚ) = z := by
  unfold toInt
  split
  · exact Int.floor_intCast z
  · exact Int.ceil_intCast z

theorem toInt_cells (X cs : Int) : toInt ((X : ℚ) * (cs : ℚ)) = X * cs := by
  rw [← Int.cast_mul, toInt_intCast]

/-- C9: with a positive cell size, after `Resize(X, Y)` the width and height of
the world are `X * CELL_SIZE` and `Y * CELL_SIZE`; the width and height that
`Serialize` writes into the header and `Export` sets as map attributes,
`(int) _sx / CELL_SIZE` and `(int) _sy / CELL_SIZE`, are `X` and `Y`; and
resizing any world to the saved dimensions gives the same width, height and
location-grid size. -/
theorem Resize_roundtrip (E : SaveEnv) (hc : 0 < E.CELL_SIZE) (X Y : Int) (w w2 : World) :
    (Resize E.CELL_SIZE E.LOCATION_SIZE X Y w)._sx = (X : ℚ) * (E.CELL_SIZE : ℚ)
      ∧ (Resize E.CELL_SIZE E.LOCATION_SIZE X Y w)._sy = (Y : ℚ) * (E.CELL_SIZE : ℚ)
      ∧ (saveHeader E (Resize E.CELL_SIZE E.LOCATION_SIZE X Y w)).width = X
      ∧ (saveHeader E (Resize E.CELL_SIZE E.LOCATION_SIZE X Y w)).height = Y
      ∧ ("width", AttrValue.int X)
          ∈ ExportMapAttributes E (Resize E.CELL_SIZE E.LOCATION_SIZE X Y w)
      ∧ ("height", AttrValue.int Y)
          ∈ ExportMapAttributes E (Resize E.CELL_SIZE E.LOCATION_SIZE X Y w)
      ∧ (Resize E.CELL_SIZE E.LOCATION_SIZE
            (saveHeader E (Resize E.CELL_SIZE E.LOCATION_SIZE X Y w)).width
            (saveHeader E (Resize E.CELL_SIZE E.LOCATION_SIZE X Y w)).height w2)._sx
          = (Resize E.CELL_SIZE E.LOCATION_SIZE X Y w)._sx
      ∧ (Resize E.CELL_SIZE E.LOCATION_SIZE
            (saveHeader E (Resize E.CELL_SIZE E.LOCATION_SIZE X Y w)).width
            (saveHeader E (Resize E.CELL_SIZE E.LOCATION_SIZE X Y w)).height w2)._sy
          = (Resize E.CELL_SIZE E.LOCATION_SIZE X Y w)._sy
      ∧ (Resize E.CELL_SIZE E.LOCATION_SIZE
            (saveHeader E (Resize E.CELL_SIZE E.LOCATION_SIZE X Y w)).width
            (saveHeader E (Resize E.CELL_SIZE E.LOCATION_SIZE X Y w)).height w2)._locationsX
          = (Resize E.CELL_SIZE E.LOCATION_SIZE X Y w)._locationsX
      ∧ (Resize E.CELL_SIZE E.LOCATION_SIZE
            (saveHeader E (Resize E.CELL_SIZE E.LOCATION_SIZE X Y w)).width
            (saveHeader E (Resize E.CELL_SIZE E.LOCATION_SIZE X Y w)).height w2)._locationsY
          = (Resize E.CELL_SIZE E.LOCATION_SIZE X Y w)._locationsY := by
  have hne : E.CELL_SIZE ≠ 0 := ne_of_gt hc
  have hw : (saveHeader E (Resize E.CELL_SIZE E.LOCATION_SIZE X Y w)).width = X := by
    simp only [saveHeader, Resize]
    rw [toInt_cells, Int.mul_tdiv_cancel _ hne]
  have hh : (saveHeader E (Resize E.CELL_SIZE E.LOCATION_SIZE X Y w)).height = Y := by
    simp only [saveHeader, Resize]
    rw [toInt_cells, Int.mul_tdiv_cancel _ hne]
  refine ⟨rfl, rfl, hw, hh, ?_, ?_, ?_, ?_, ?_, ?_⟩
  · have e : Int.tdiv (toInt (Resize E.CELL_SIZE E.LOCATION_SIZE X Y w)._sx) E.CELL_SIZE = X := hw
    simp [ExportMapAttributes, e]
  · have e : Int.tdiv (toInt (Resize E.CELL_SIZE E.LOCATION_SIZE X Y w)._sy) E.CELL_SIZE = Y := hh
    simp [ExportMapAttributes, e]
  · rw [hw, hh]; rfl
  · rw [hw, hh]; rfl
  · rw [hw, hh]; rfl
  · rw [hw, hh]; rfl

/-- Witness of C9: `Resize(10, 10)` with cells of 32 and locations of 128 units
gives a world of 320 x 320 with a grid of 3 x 3 locations, saved as 10 x 10. -/
theorem Resize_roundtrip_witness :
    (Resize 32 128 10 10 (World.new Config.noLimits))._sx = ((10 : Int) : ℚ) * ((32 : Int) : ℚ)
      ∧ (saveHeader SaveEnv.plain (Resize 32 128 10 10 (World.new Config.noLimits))).width = 10
      ∧ (saveHeader SaveEnv.plain (Resize 32 128 10 10 (World.new Config.noLimits))).height
          = 10
      ∧ (Resize 32 128 10 10 (World.new Config.noLimits))._locationsX = 3 :=
  have h := Resize_roundtrip SaveEnv.plain (by decide) 10 10 (World.new Config.noLimits)
    (World.new Config.noLimits)
  ⟨h.1, h.2.2.1, h.2.2.2.1, by decide⟩

/-! ### The intercept solver -/

theorem intercept_core {K : Type} [LinearOrderedField K]
    (vt vp tvx tvy dx dy cg sg S t : K)
    (hvt : 0 < vt) (hvp : vt < vp)
    (hcg : vt * cg = tvx) (hsg : vt * sg = tvy) (hcs : cg * cg + sg * sg = 1)
    (hS0 : 0 ≤ S)
    (hS : S * S = (dx * cg + dy * sg) * (dx * cg + dy * sg) * vp * vp
        + (dy * cg - dx * sg) * (dy * cg - dx * sg) * (vp * vp - vt * vt))
    (ht : (vp * vp - vt * vt) * t = (dx * cg + dy * sg) * vt + S) :
    0 ≤ t
      ∧ ((dx * cg + dy * sg) + vt * t) * cg - (dy * cg - dx * sg) * sg = dx + t * tvx
      ∧ ((dx * cg + dy * sg) + vt * t) * sg + (dy * cg - dx * sg) * cg = dy + t * tvy
      ∧ (((dx * cg + dy * sg) + vt * t) * cg - (dy * cg - dx * sg) * sg)
            * (((dx * cg + dy * sg) + vt * t) * cg - (dy * cg - dx * sg) * sg)
          + (((dx * cg + dy * sg) + vt * t) * sg + (dy * cg - dx * sg) * cg)
            * (((dx * cg + dy * sg) + vt * t) * sg + (dy * cg - dx * sg) * cg)
          = (vp * t) * (vp * t) := by
  have htmp : 0 < vp * vp - vt * vt := by nlinarith
  have h1 : 0 ≤ (dx * cg + dy * sg) * vt + S := by
    by_contra hneg
    push_neg at hneg
    nlinarith [mul_self_nonneg (dy * cg - dx * sg), mul_self_nonneg (dx * cg + dy * sg),
      mul_nonneg (mul_self_nonneg (dy * cg - dx * sg)) htmp.le,
      mul_nonneg (mul_self_nonneg (dx * cg + dy * sg)) htmp.le]
  refine ⟨?_, ?_, ?_, ?_⟩
  · rw [← ht] at h1
    exact nonneg_of_mul_nonneg_right h1 htmp
  · linear_combination dx * hcs + t * hcg
  · linear_combination dy * hcs + t * hsg
  · have hE : (vp * vp - vt * vt) * (vp * t * (vp * t)
        - (((dx * cg + dy * sg) + vt * t) * ((dx * cg + dy * sg) + vt * t)
          + (dy * cg - dx * sg) * (dy * cg - dx * sg))) = 0 := by
      linear_combination ((vp * vp - vt * vt) * t + (dx * cg + dy * sg) * vt + S
        - 2 * (dx * cg + dy * sg) * vt) * ht + hS
    have hE2 := (mul_eq_zero.1 hE).resolve_left (ne_of_gt htmp)
    linear_combination (((dx * cg + dy * sg) + vt * t) * ((dx * cg + dy * sg) + vt * t)
          + (dy * cg - dx * sg) * (dy * cg - dx * sg)) * hcs - hE2


theorem sqrt_mul_self_of {K : Type} [LinearOrderedField K] (sqrt : K → K)
    (hsqrt : ∀ r, 0 ≤ r → 0 ≤ sqrt r ∧ sqrt r * sqrt r = r) (a : K) (ha : 0 ≤ a) :
    sqrt (a * a) = a :=
  (mul_self_inj (hsqrt _ (mul_self_nonneg a)).1 ha).1 (hsqrt _ (mul_self_nonneg a)).2

theorem len_eq_of_sq {K : Type} [LinearOrderedField K] (sqrt : K → K)
    (hsqrt : ∀ r, 0 ≤ r → 0 ≤ sqrt r ∧ sqrt r * sqrt r = r) (a b c : K) (hc : 0 ≤ c)
    (h : a * a + b * b = c * c) : vec2d.len sqrt ⟨a, b⟩ = c := by
  unfold vec2d.len
  simp only []
  rw [h]
  exact sqrt_mul_self_of sqrt hsqrt c hc

/-- C10: when the target speed `|tv|` is at least 1e-7 and below the projectile
speed `vp`, and the clamp to the world bounds does not change the computed
point, `CalcOutstrip` returns true and a point `P = tx + t * tv` with `t ≥ 0`
that a projectile of speed `vp` fired from `fp` reaches at the same time `t`:
`|P - fp| = vp * t`.  The arithmetic is that of any ordered field with a
square root function (`0 ≤ sqrt r` and `sqrt r * sqrt r = r` for `0 ≤ r`), so
of the real numbers. -/
theorem CalcOutstrip_intercept {K : Type} [LinearOrderedField K] (sqrt : K → K)
    (hsqrt : ∀ r, 0 ≤ r → 0 ≤ sqrt r ∧ sqrt r * sqrt r = r)
    (w : World) (fp : vec2d K) (vp : K) (tx tv : vec2d K)
    (h1 : 1 / 10 ^ 7 ≤ tv.len sqrt) (h2 : tv.len sqrt < vp)
    (hx : 0 ≤ (outstripPoint sqrt fp vp tx tv).x
      ∧ (outstripPoint sqrt fp vp tx tv).x ≤ (w._sx : K))
    (hy : 0 ≤ (outstripPoint sqrt fp vp tx tv).y
      ∧ (outstripPoint sqrt fp vp tx tv).y ≤ (w._sy : K)) :
    (CalcOutstrip sqrt w fp vp tx tv).1 = true
      ∧ ∃ t : K, 0 ≤ t
          ∧ (CalcOutstrip sqrt w fp vp tx tv).2.x = tx.x + t * tv.x
          ∧ (CalcOutstrip sqrt w fp vp tx tv).2.y = tx.y + t * tv.y
          ∧ vec2d.len sqrt ⟨(CalcOutstrip sqrt w fp vp tx tv).2.x - fp.x,
              (CalcOutstrip sqrt w fp vp tx tv).2.y - fp.y⟩ = vp * t := by
  have hC : CalcOutstrip sqrt w fp vp tx tv = (true, outstripPoint sqrt fp vp tx tv) := by
    unfold CalcOutstrip
    simp only []
    rw [if_neg (by
      rw [not_or, not_le, not_lt]
      exact ⟨h2, h1⟩)]
    rw [min_eq_right hx.2, max_eq_right hx.1, min_eq_right hy.2, max_eq_right hy.1]
  rw [hC]
  refine ⟨rfl, ?_⟩
  have hvt : 0 < tv.len sqrt := lt_of_lt_of_le (by positivity) h1
  have hvt2 : tv.len sqrt * tv.len sqrt = tv.x * tv.x + tv.y * tv.y :=
    (hsqrt _ (add_nonneg (mul_self_nonneg _) (mul_self_nonneg _))).2
  have hne : tv.len sqrt ≠ 0 := ne_of_gt hvt
  have htmp : 0 < vp * vp - tv.len sqrt * tv.len sqrt := by nlinarith
  have hcg : tv.len sqrt * (tv.x / tv.len sqrt) = tv.x := mul_div_cancel₀ _ hne
  have hsg : tv.len sqrt * (tv.y / tv.len sqrt) = tv.y := mul_div_cancel₀ _ hne
  have hcs : tv.x / tv.len sqrt * (tv.x / tv.len sqrt)
      + tv.y / tv.len sqrt * (tv.y / tv.len sqrt) = 1 := by
    field_simp
    linear_combination -hvt2
  have hD : 0 ≤ ((tx.x - fp.x) * (tv.x / tv.len sqrt) + (tx.y - fp.y) * (tv.y / tv.len sqrt))
        * ((tx.x - fp.x) * (tv.x / tv.len sqrt) + (tx.y - fp.y) * (tv.y / tv.len sqrt))
        * vp * vp
      + ((tx.y - fp.y) * (tv.x / tv.len sqrt) - (tx.x - fp.x) * (tv.y / tv.len sqrt))
        * ((tx.y - fp.y) * (tv.x / tv.len sqrt) - (tx.x - fp.x) * (tv.y / tv.len sqrt))
        * (vp * vp - tv.len sqrt * tv.len sqrt) := by
    refine add_nonneg ?_ (mul_nonneg (mul_self_nonneg _) htmp.le)
    rw [mul_assoc]
    exact mul_nonneg (mul_self_nonneg _) (mul_self_nonneg _)
  obtain ⟨hS0, hS⟩ := hsqrt _ hD
  have ht : (vp * vp - tv.len sqrt * tv.len sqrt)
      * ((((tx.x - fp.x) * (tv.x / tv.len sqrt) + (tx.y - fp.y) * (tv.y / tv.len sqrt))
            * tv.len sqrt
          + sqrt (((tx.x - fp.x) * (tv.x / tv.len sqrt) + (tx.y - fp.y) * (tv.y / tv.len sqrt))
              * ((tx.x - fp.x) * (tv.x / tv.len sqrt) + (tx.y - fp.y) * (tv.y / tv.len sqrt))
              * vp * vp
            + ((tx.y - fp.y) * (tv.x / tv.len sqrt) - (tx.x - fp.x) * (tv.y / tv.len sqrt))
              * ((tx.y - fp.y) * (tv.x / tv.len sqrt) - (tx.x - fp.x) * (tv.y / tv.len sqrt))
              * (vp * vp - tv.len sqrt * tv.len sqrt)))
          / (vp * vp - tv.len sqrt * tv.len sqrt))
      = ((tx.x - fp.x) * (tv.x / tv.len sqrt) + (tx.y - fp.y) * (tv.y / tv.len sqrt))
            * tv.len sqrt
          + sqrt (((tx.x - fp.x) * (tv.x / tv.len sqrt) + (tx.y - fp.y) * (tv.y / tv.len sqrt))
              * ((tx.x - fp.x) * (tv.x / tv.len sqrt) + (tx.y - fp.y) * (tv.y / tv.len sqrt))
              * vp * vp
            + ((tx.y - fp.y) * (tv.x / tv.len sqrt) - (tx.x - fp.x) * (tv.y / tv.len sqrt))
              * ((tx.y - fp.y) * (tv.x / tv.len sqrt) - (tx.x - fp.x) * (tv.y / tv.len sqrt))
              * (vp * vp - tv.len sqrt * tv.len sqrt)) :=
    mul_div_cancel₀ _ (ne_of_gt htmp)
  obtain ⟨c1, c2, c3, c4⟩ := intercept_core (tv.len sqrt) vp tv.x tv.y (tx.x - fp.x)
    (tx.y - fp.y) (tv.x / tv.len sqrt) (tv.y / tv.len sqrt) _ _ hvt h2 hcg hsg hcs hS0 hS ht
  refine ⟨_, c1, ?_, ?_, ?_⟩
  · simp only [outstripPoint, mul_div_assoc]
    linear_combination c2
  · simp only [outstripPoint, mul_div_assoc]
    linear_combination c3
  · apply len_eq_of_sq sqrt hsqrt _ _ _ (mul_nonneg (le_of_lt (lt_trans hvt h2)) c1)
    simp only [outstripPoint, mul_div_assoc]
    linear_combination c4


theorem real_sqrt_spec : ∀ r : ℝ, 0 ≤ r → 0 ≤ Real.sqrt r ∧ Real.sqrt r * Real.sqrt r = r :=
  fun r hr => ⟨Real.sqrt_nonneg r, Real.mul_self_sqrt hr⟩

theorem scenarioC_len : vec2d.len Real.sqrt (⟨0, 5⟩ : vec2d ℝ) = 5 := by
  unfold vec2d.len
  rw [show ((0 : ℝ) * 0 + 5 * 5) = 5 * 5 by norm_num]
  exact Real.sqrt_mul_self (by norm_num)

theorem scenarioC_sqrt : Real.sqrt 750000 = 500 * Real.sqrt 3 := by
  rw [show (750000 : ℝ) = 500 * 500 * 3 by norm_num,
    Real.sqrt_mul (by norm_num), Real.sqrt_mul_self (by norm_num)]

theorem scenarioC_point :
    outstripPoint Real.sqrt (⟨0, 0⟩ : vec2d ℝ) 10 ⟨100, 0⟩ ⟨0, 5⟩
      = ⟨100, 100 / Real.sqrt 3⟩ := by
  have h3 : Real.sqrt 3 * Real.sqrt 3 = 3 := Real.mul_self_sqrt (by norm_num)
  have h0 : Real.sqrt 3 ≠ 0 := by
    intro h
    rw [h] at h3
    norm_num at h3
  unfold outstripPoint
  simp only [scenarioC_len]
  norm_num
  rw [scenarioC_sqrt]
  field_simp
  linear_combination 2500 * h3


/-- Witness of C10, scenario C: over the real numbers, in a world of 1280 x 1280
units, firing from (0,0) at speed 10 at a target at (100,0) that moves with
velocity (0,5) gives the point (100, 100/sqrt 3). -/
theorem CalcOutstrip_intercept_witness :
    (CalcOutstrip Real.sqrt wideWorld (⟨0, 0⟩ : vec2d ℝ) 10 ⟨100, 0⟩ ⟨0, 5⟩).1 = true
      ∧ (CalcOutstrip Real.sqrt wideWorld (⟨0, 0⟩ : vec2d ℝ) 10 ⟨100, 0⟩ ⟨0, 5⟩).2.x = 100
      ∧ (CalcOutstrip Real.sqrt wideWorld (⟨0, 0⟩ : vec2d ℝ) 10 ⟨100, 0⟩ ⟨0, 5⟩).2.y
          = 100 / Real.sqrt 3
      ∧ ∃ t : ℝ, 0 ≤ t
          ∧ (CalcOutstrip Real.sqrt wideWorld (⟨0, 0⟩ : vec2d ℝ) 10 ⟨100, 0⟩ ⟨0, 5⟩).2.x
              = 100 + t * 0
          ∧ (CalcOutstrip Real.sqrt wideWorld (⟨0, 0⟩ : vec2d ℝ) 10 ⟨100, 0⟩ ⟨0, 5⟩).2.y
              = 0 + t * 5
          ∧ vec2d.len Real.sqrt
              ⟨(CalcOutstrip Real.sqrt wideWorld (⟨0, 0⟩ : vec2d ℝ) 10 ⟨100, 0⟩ ⟨0, 5⟩).2.x - 0,
                (CalcOutstrip Real.sqrt wideWorld (⟨0, 0⟩ : vec2d ℝ) 10 ⟨100, 0⟩ ⟨0, 5⟩).2.y - 0⟩
              = 10 * t := by
  have h3 : Real.sqrt 3 * Real.sqrt 3 = 3 := Real.mul_self_sqrt (by norm_num)
  have hpos : 0 < Real.sqrt 3 := Real.sqrt_pos.2 (by norm_num)
  have h1 : (1 : ℝ) ≤ Real.sqrt 3 := by
    rw [show (1 : ℝ) = Real.sqrt 1 by simp]
    exact Real.sqrt_le_sqrt (by norm_num)
  have hy0 : (0 : ℝ) ≤ 100 / Real.sqrt 3 := by positivity
  have hy1 : (100 : ℝ) / Real.sqrt 3 ≤ 1280 := by
    rw [div_le_iff₀ hpos]
    nlinarith
  have hsx : ((wideWorld._sx : ℚ) : ℝ) = 1280 := by
    norm_num [wideWorld, Resize]
  have hsy : ((wideWorld._sy : ℚ) : ℝ) = 1280 := by
    norm_num [wideWorld, Resize]
  have h := CalcOutstrip_intercept Real.sqrt real_sqrt_spec wideWorld
    (⟨0, 0⟩ : vec2d ℝ) 10 ⟨100, 0⟩ ⟨0, 5⟩
    (by rw [scenarioC_len]; norm_num) (by rw [scenarioC_len]; norm_num)
    (by rw [scenarioC_point, hsx]; norm_num)
    (by rw [scenarioC_point, hsy]; exact ⟨hy0, hy1⟩)
  have hC : CalcOutstrip Real.sqrt wideWorld (⟨0, 0⟩ : vec2d ℝ) 10 ⟨100, 0⟩ ⟨0, 5⟩
      = (true, ⟨100, 100 / Real.sqrt 3⟩) := by
    unfold CalcOutstrip
    simp only [scenarioC_len, scenarioC_point, hsx, hsy]
    rw [if_neg (by norm_num)]
    rw [min_eq_right (by norm_num), max_eq_right (by norm_num), min_eq_right hy1,
      max_eq_right hy0]
  refine ⟨h.1, ?_, ?_, h.2⟩
  · rw [hC]
  · rw [hC]

/-! ### The intercept solver: degenerate cases and bounds -/

theorem CalcOutstrip_false {K : Type} [LinearOrderedField K] (sqrt : K → K) (w : World)
    (fp : vec2d K) (vp : K) (tx tv : vec2d K)
    (h : vp ≤ tv.len sqrt ∨ tv.len sqrt < 1 / 10 ^ 7) :
    CalcOutstrip sqrt w fp vp tx tv = (false, tx) := by
  unfold CalcOutstrip
  simp only []
  rw [if_pos h]

theorem CalcOutstrip_true {K : Type} [LinearOrderedField K] (sqrt : K → K) (w : World)
    (fp : vec2d K) (vp : K) (tx tv : vec2d K)
    (h : ¬ (vp ≤ tv.len sqrt ∨ tv.len sqrt < 1 / 10 ^ 7)) :
    CalcOutstrip sqrt w fp vp tx tv
      = (true, ⟨max 0 (min (w._sx : K) (outstripPoint sqrt fp vp tx tv).x),
          max 0 (min (w._sy : K) (outstripPoint sqrt fp vp tx tv).y)⟩) := by
  unfold CalcOutstrip
  simp only []
  rw [if_neg h]

/-- C11: when the target speed is at least the projectile speed, or below 1e-7,
`CalcOutstrip` returns false and leaves the target position `tx` itself in the
output, not clamped and not depending on the quotients of the other branch; in
every other case it returns true, so that the result is false exactly in the
two degenerate cases. -/
theorem CalcOutstrip_degenerate {K : Type} [LinearOrderedField K] (sqrt : K → K) (w : World)
    (fp : vec2d K) (vp : K) (tx tv : vec2d K) :
    ((vp ≤ tv.len sqrt ∨ tv.len sqrt < 1 / 10 ^ 7) →
        CalcOutstrip sqrt w fp vp tx tv = (false, tx))
      ∧ ((CalcOutstrip sqrt w fp vp tx tv).1 = false
          ↔ (vp ≤ tv.len sqrt ∨ tv.len sqrt < 1 / 10 ^ 7))
      ∧ ((CalcOutstrip sqrt w fp vp tx tv).1 = true
          ↔ (tv.len sqrt < vp ∧ 1 / 10 ^ 7 ≤ tv.len sqrt)) := by
  refine ⟨CalcOutstrip_false sqrt w fp vp tx tv, ?_, ?_⟩
  · by_cases h : vp ≤ tv.len sqrt ∨ tv.len sqrt < 1 / 10 ^ 7
    · rw [CalcOutstrip_false sqrt w fp vp tx tv h]
      exact ⟨fun _ => h, fun _ => rfl⟩
    · rw [CalcOutstrip_true sqrt w fp vp tx tv h]
      exact ⟨fun h1 => absurd (show true = false from h1) (by decide), fun h1 => absurd h1 h⟩
  · by_cases h : vp ≤ tv.len sqrt ∨ tv.len sqrt < 1 / 10 ^ 7
    · rw [CalcOutstrip_false sqrt w fp vp tx tv h]
      simp only [Bool.false_eq_true, false_iff, not_and, not_le]
      intro h1
      rcases h with h | h
      · exact absurd h1 (not_lt.2 h)
      · exact h
    · rw [CalcOutstrip_true sqrt w fp vp tx tv h]
      rw [not_or, not_le, not_lt] at h
      exact ⟨fun _ => h, fun _ => rfl⟩

theorem zero_len : vec2d.len Real.sqrt (⟨0, 0⟩ : vec2d ℝ) = 0 := by
  unfold vec2d.len
  simp

/-- Witness of C11: over the real numbers, a target at (-7, 5000), outside the
world, that moves at speed 5 against a projectile of speed 3, and one that
stands still. -/
theorem CalcOutstrip_degenerate_witness :
    (CalcOutstrip Real.sqrt wideWorld (⟨0, 0⟩ : vec2d ℝ) 3 ⟨-7, 5000⟩ ⟨0, 5⟩
        = (false, ⟨-7, 5000⟩))
      ∧ (CalcOutstrip Real.sqrt wideWorld (⟨0, 0⟩ : vec2d ℝ) 3 ⟨-7, 5000⟩ ⟨0, 0⟩
        = (false, ⟨-7, 5000⟩)) :=
  ⟨(CalcOutstrip_degenerate Real.sqrt wideWorld (⟨0, 0⟩ : vec2d ℝ) 3 ⟨-7, 5000⟩ ⟨0, 5⟩).1
      (Or.inl (by rw [scenarioC_len]; norm_num)),
    (CalcOutstrip_degenerate Real.sqrt wideWorld (⟨0, 0⟩ : vec2d ℝ) 3 ⟨-7, 5000⟩ ⟨0, 0⟩).1
      (Or.inr (by rw [zero_len]; norm_num))⟩

theorem outstripPoint_parts {K : Type} [LinearOrderedField K] (sqrt : K → K)
    (fp : vec2d K) (vp : K) (tx tv : vec2d K) :
    outstripPoint sqrt fp vp tx tv
      = ⟨fp.x
          + (((tx.x - fp.x) * (tv.x / tv.len sqrt) + (tx.y - fp.y) * (tv.y / tv.len sqrt))
              + tv.len sqrt
                * (((tx.x - fp.x) * (tv.x / tv.len sqrt) + (tx.y - fp.y) * (tv.y / tv.len sqrt))
                    * tv.len sqrt + sqrt (outstripRadicand sqrt fp vp tx tv))
                / outstripDivisor sqrt vp tv) * (tv.x / tv.len sqrt)
          - ((tx.y - fp.y) * (tv.x / tv.len sqrt) - (tx.x - fp.x) * (tv.y / tv.len sqrt))
              * (tv.y / tv.len sqrt),
        fp.y
          + (((tx.x - fp.x) * (tv.x / tv.len sqrt) + (tx.y - fp.y) * (tv.y / tv.len sqrt))
              + tv.len sqrt
                * (((tx.x - fp.x) * (tv.x / tv.len sqrt) + (tx.y - fp.y) * (tv.y / tv.len sqrt))
                    * tv.len sqrt + sqrt (outstripRadicand sqrt fp vp tx tv))
                / outstripDivisor sqrt vp tv) * (tv.y / tv.len sqrt)
          + ((tx.y - fp.y) * (tv.x / tv.len sqrt) - (tx.x - fp.x) * (tv.y / tv.len sqrt))
              * (tv.x / tv.len sqrt)⟩ :=
  rfl

/-- C12: whenever `CalcOutstrip` returns true in a world of non-negative width
and height, the output point lies within the world bounds, and it is the
computed point itself when that lies within the bounds; on this branch the
divisor `vp*vp - vt*vt` is positive and the quantity under the square root is
non-negative. -/
theorem CalcOutstrip_clamped {K : Type} [LinearOrderedField K] (sqrt : K → K) (w : World)
    (fp : vec2d K) (vp : K) (tx tv : vec2d K)
    (hsx : 0 ≤ w._sx) (hsy : 0 ≤ w._sy)
    (ht : (CalcOutstrip sqrt w fp vp tx tv).1 = true) :
    0 ≤ (CalcOutstrip sqrt w fp vp tx tv).2.x
      ∧ (CalcOutstrip sqrt w fp vp tx tv).2.x ≤ (w._sx : K)
      ∧ 0 ≤ (CalcOutstrip sqrt w fp vp tx tv).2.y
      ∧ (CalcOutstrip sqrt w fp vp tx tv).2.y ≤ (w._sy : K)
      ∧ (0 ≤ (outstripPoint sqrt fp vp tx tv).x
          ∧ (outstripPoint sqrt fp vp tx tv).x ≤ (w._sx : K)
          ∧ 0 ≤ (outstripPoint sqrt fp vp tx tv).y
          ∧ (outstripPoint sqrt fp vp tx tv).y ≤ (w._sy : K) →
          (CalcOutstrip sqrt w fp vp tx tv).2 = outstripPoint sqrt fp vp tx tv)
      ∧ 0 < outstripDivisor sqrt vp tv
      ∧ 0 ≤ outstripRadicand sqrt fp vp tx tv := by
  have hc : ¬ (vp ≤ tv.len sqrt ∨ tv.len sqrt < 1 / 10 ^ 7) := by
    intro h
    rw [CalcOutstrip_false sqrt w fp vp tx tv h] at ht
    exact absurd (show false = true from ht) (by decide)
  have hX : (0 : K) ≤ (w._sx : K) := Rat.cast_nonneg.2 hsx
  have hY : (0 : K) ≤ (w._sy : K) := Rat.cast_nonneg.2 hsy
  rw [CalcOutstrip_true sqrt w fp vp tx tv hc]
  rw [not_or, not_le, not_lt] at hc
  have hvt : 0 < tv.len sqrt := lt_of_lt_of_le (by positivity) hc.2
  have hdiv : 0 < outstripDivisor sqrt vp tv := by
    unfold outstripDivisor
    simp only []
    nlinarith [hc.1]
  refine ⟨le_max_left _ _, max_le hX (min_le_left _ _), le_max_left _ _,
    max_le hY (min_le_left _ _), ?_, hdiv, ?_⟩
  · rintro ⟨h1, h2, h3, h4⟩
    simp only []
    rw [min_eq_right h2, max_eq_right h1, min_eq_right h4, max_eq_right h3]
  · unfold outstripRadicand
    simp only []
    refine add_nonneg ?_ (mul_nonneg (mul_self_nonneg _) hdiv.le)
    rw [mul_assoc]
    exact mul_nonneg (mul_self_nonneg _) (mul_self_nonneg _)

/-- Witness of C12: scenario C over the real numbers, in the world of
1280 x 1280 units. -/
theorem CalcOutstrip_clamped_witness :
    0 ≤ (CalcOutstrip Real.sqrt wideWorld (⟨0, 0⟩ : vec2d ℝ) 10 ⟨100, 0⟩ ⟨0, 5⟩).2.x
      ∧ (CalcOutstrip Real.sqrt wideWorld (⟨0, 0⟩ : vec2d ℝ) 10 ⟨100, 0⟩ ⟨0, 5⟩).2.x
          ≤ ((wideWorld._sx : ℚ) : ℝ)
      ∧ 0 ≤ (CalcOutstrip Real.sqrt wideWorld (⟨0, 0⟩ : vec2d ℝ) 10 ⟨100, 0⟩ ⟨0, 5⟩).2.y
      ∧ (CalcOutstrip Real.sqrt wideWorld (⟨0, 0⟩ : vec2d ℝ) 10 ⟨100, 0⟩ ⟨0, 5⟩).2.y
          ≤ ((wideWorld._sy : ℚ) : ℝ)
      ∧ 0 < outstripDivisor Real.sqrt (10 : ℝ) ⟨0, 5⟩
      ∧ 0 ≤ outstripRadicand Real.sqrt (⟨0, 0⟩ : vec2d ℝ) 10 ⟨100, 0⟩ ⟨0, 5⟩ :=
  have h := CalcOutstrip_clamped Real.sqrt wideWorld (⟨0, 0⟩ : vec2d ℝ) 10 ⟨100, 0⟩ ⟨0, 5⟩
    (by norm_num [wideWorld, Resize]) (by norm_num [wideWorld, Resize])
    (by
      rw [CalcOutstrip_true Real.sqrt wideWorld (⟨0, 0⟩ : vec2d ℝ) 10 ⟨100, 0⟩ ⟨0, 5⟩
        (by rw [scenarioC_len]; norm_num)])
  ⟨h.1, h.2.1, h.2.2.1, h.2.2.2.1, h.2.2.2.2.2.1, h.2.2.2.2.2.2⟩

/-! ### The random source: word width and float draws -/

theorem shift_mask_low31 (y : Nat) : (y >>> 16) &&& 0x7fff = (y % 2 ^ 31) / 2 ^ 16 := by
  rw [Nat.shiftRight_eq_div_pow, show (0x7fff : Nat) = 2 ^ 15 - 1 by norm_num,
    Nat.and_pow_two_sub_one_eq_mod, show (2 : Nat) ^ 31 = 2 ^ 16 * 2 ^ 15 by norm_num,
    Nat.mod_mul_right_div_self]

theorem lcgSeq_low31 (bits s : Nat) (hb : 31 ≤ bits) :
    ∀ i, lcgSeq bits s i % 2 ^ 31 = lcgSeq 31 s i := by
  have hd : 2 ^ 31 ∣ 2 ^ bits := Nat.pow_dvd_pow 2 hb
  intro i
  induction i with
  | zero => simp only [lcgSeq]; exact Nat.mod_mod_of_dvd _ hd
  | succ i ih =>
    simp only [lcgSeq]
    rw [Nat.mod_mod_of_dvd _ hd]
    have h : Nat.ModEq (2 ^ 31) (lcgSeq bits s i) (lcgSeq 31 s i) := by
      unfold Nat.ModEq
      rw [← ih, Nat.mod_mod]
    exact Nat.ModEq.add_right _ (Nat.ModEq.mul_right _ h)

theorem drawN_low31 (bits s n : Nat) (hb : 31 ≤ bits) (w : World) :
    (drawN bits 0x7fff n (Seed bits s w)).1
      = (List.range n).map (fun k => lcgSeq 31 s (k + 1) / 2 ^ 16) := by
  have h := (drawN_from bits 0x7fff s n 0 (Seed bits s w) (by simp [Seed, lcgSeq])).1
  rw [h]
  apply List.map_congr_left
  intro k _
  rw [shift_mask_low31, Nat.zero_add, lcgSeq_low31 bits s hb]

/-- C13: with the 15-bit maximum 0x7fff the draws of `net_rand` are the same
whether the seed arithmetic is carried out modulo 2^32 or modulo 2^64; every
draw is bits 16..30 of the updated seed, so it depends on the low 31 bits of
it only; `Seed(1)` followed by three draws gives 41, 18467, 6334 on both. -/
theorem net_rand_width_independent (s n : Nat) (w : World) :
    (drawN 32 0x7fff n (Seed 32 s w)).1 = (drawN 64 0x7fff n (Seed 64 s w)).1
      ∧ (∀ v : World, (net_rand 32 0x7fff v).1 = ((v._seed * 214013 + 2531011) % 2 ^ 31) / 2 ^ 16)
      ∧ (∀ v : World, (net_rand 64 0x7fff v).1 = ((v._seed * 214013 + 2531011) % 2 ^ 31) / 2 ^ 16)
      ∧ (drawN 32 0x7fff 3 (Seed 32 1 w)).1 = [41, 18467, 6334]
      ∧ (drawN 64 0x7fff 3 (Seed 64 1 w)).1 = [41, 18467, 6334] := by
  refine ⟨?_, ?_, ?_, ?_, ?_⟩
  · rw [drawN_low31 32 s n (by norm_num) w, drawN_low31 64 s n (by norm_num) w]
  · intro v
    simp only [net_rand]
    rw [shift_mask_low31, Nat.mod_mod_of_dvd _ (Nat.pow_dvd_pow 2 (by norm_num : 31 ≤ 32))]
  · intro v
    simp only [net_rand]
    rw [shift_mask_low31, Nat.mod_mod_of_dvd _ (Nat.pow_dvd_pow 2 (by norm_num : 31 ≤ 64))]
  · rw [drawN_low31 32 1 3 (by norm_num) w]
    rfl
  · rw [drawN_low31 64 1 3 (by norm_num) w]
    rfl

theorem net_rand_le (bits RM : Nat) (w : World) : (net_rand bits RM w).1 ≤ RM := by
  unfold net_rand
  exact Nat.and_le_right

theorem topSeed_draw : (net_rand 32 0x7fff topSeedWorld).1 = 0x7fff := by
  rfl

/-- C14, as stated, fails: seeded with 30091, the next integer draw is
`RAND_MAX = 0x7fff`, so `net_frand(1)` returns 1 and the angle that `net_vrand`
draws for `PI2 = 710/113` is 710/113 itself: the upper end of the interval is
reached. -/
theorem net_frand_reaches_max :
    (net_rand 32 0x7fff topSeedWorld).1 = 0x7fff
      ∧ (net_frand 32 0x7fff 1 topSeedWorld).1 = 1
      ∧ ¬ ((net_frand 32 0x7fff 1 topSeedWorld).1 < 1)
      ∧ (net_vrand_angle 32 0x7fff (710 / 113) topSeedWorld).1 = 710 / 113 := by
  have h1 : (net_frand 32 0x7fff 1 topSeedWorld).1 = 1 := by
    simp only [net_frand, topSeed_draw]
    norm_num
  refine ⟨topSeed_draw, h1, ?_, ?_⟩
  · rw [h1]
    exact lt_irrefl 1
  · simp only [net_vrand_angle, net_frand, topSeed_draw]
    norm_num

/-- C14, amended: for every seed state, every positive `RAND_MAX` and every
`max > 0` the float draw lies in the closed interval from 0 to `max`; it is
`max` exactly when the integer draw is `RAND_MAX`, and below `max` otherwise. -/
theorem net_frand_range (bits RM : Nat) (max : ℚ) (w : World) (hRM : 0 < RM)
    (hmax : 0 < max) :
    0 ≤ (net_frand bits RM max w).1
      ∧ (net_frand bits RM max w).1 ≤ max
      ∧ ((net_frand bits RM max w).1 = max ↔ (net_rand bits RM w).1 = RM)
      ∧ ((net_frand bits RM max w).1 < max ↔ (net_rand bits RM w).1 < RM) := by
  have hR : (0 : ℚ) < (RM : ℚ) := by exact_mod_cast hRM
  have hle : ((net_rand bits RM w).1 : ℚ) ≤ (RM : ℚ) := by
    exact_mod_cast net_rand_le bits RM w
  have h0 : (0 : ℚ) ≤ ((net_rand bits RM w).1 : ℚ) := Nat.cast_nonneg _
  have hq : (net_frand bits RM max w).1 = ((net_rand bits RM w).1 : ℚ) / (RM : ℚ) * max := rfl
  have hq1 : ((net_rand bits RM w).1 : ℚ) / (RM : ℚ) ≤ 1 := (div_le_one hR).2 hle
  refine ⟨?_, ?_, ?_, ?_⟩
  · rw [hq]
    exact mul_nonneg (div_nonneg h0 hR.le) hmax.le
  · rw [hq]
    calc ((net_rand bits RM w).1 : ℚ) / (RM : ℚ) * max ≤ 1 * max :=
          mul_le_mul_of_nonneg_right hq1 hmax.le
      _ = max := one_mul max
  · rw [hq]
    constructor
    · intro h
      have h2 : ((net_rand bits RM w).1 : ℚ) / (RM : ℚ) = 1 := by
        have := mul_right_cancel₀ (ne_of_gt hmax) (h.trans (one_mul max).symm)
        exact this
      have h3 : ((net_rand bits RM w).1 : ℚ) = (RM : ℚ) := by
        rw [div_eq_one_iff_eq (ne_of_gt hR)] at h2
        exact h2
      exact_mod_cast h3
    · intro h
      rw [h, div_self (ne_of_gt hR), one_mul]
  · rw [hq]
    constructor
    · intro h
      by_contra hn
      have he : (net_rand bits RM w).1 = RM := le_antisymm (net_rand_le bits RM w) (not_lt.1 hn)
      rw [he, div_self (ne_of_gt hR), one_mul] at h
      exact lt_irrefl _ h
    · intro h
      have h2 : ((net_rand bits RM w).1 : ℚ) < (RM : ℚ) := by exact_mod_cast h
      calc ((net_rand bits RM w).1 : ℚ) / (RM : ℚ) * max < 1 * max :=
            mul_lt_mul_of_pos_right ((div_lt_one hR).2 h2) hmax
        _ = max := one_mul max

/-- Witness of C14, amended: the first float draw of a fresh world (seed 1,
integer draw 41) with `max = 2`. -/
theorem net_frand_range_witness :
    0 ≤ (net_frand 32 0x7fff 2 (World.new Config.noLimits)).1
      ∧ (net_frand 32 0x7fff 2 (World.new Config.noLimits)).1 ≤ 2
      ∧ (net_frand 32 0x7fff 2 (World.new Config.noLimits)).1 < 2 :=
  have h := net_frand_range 32 0x7fff 2 (World.new Config.noLimits) (by norm_num) (by norm_num)
  ⟨h.1, h.2.1, h.2.2.2.2 (by decide)⟩

/-! ### The ray-trace selectors -/

theorem vec2d_add_def {K : Type} [Add K] (a b : vec2d K) : a + b = ⟨a.x + b.x, a.y + b.y⟩ := rfl

theorem vec2d_mul_def {K : Type} [Mul K] (a : vec2d K) (k : K) : a * k = ⟨a.x * k, a.y * k⟩ := rfl

theorem vec2d_div_def {K : Type} [Div K] (a : vec2d K) (k : K) : a / k = ⟨a.x / k, a.y / k⟩ := rfl

theorem SelectNearest.Select_ignored {K : Type} [Field K] (s : SelectNearest K)
    (c : SelectCall K) (h : s.ignore = some c.obj) : s.Select c = (false, s) := by
  unfold SelectNearest.Select
  rw [if_neg (not_not.2 h)]

theorem SelectNearest.Select_accepted {K : Type} [Field K] (s : SelectNearest K)
    (c : SelectCall K) (h : s.ignore ≠ some c.obj) :
    s.Select c
      = (false,
          { s with
            result := some c.obj
            resultPos := s.lineCenter + s.lineDirection * c.enter
            resultNorm := c.norm
            lineDirection := s.lineDirection * (c.enter + 1 / 2)
            lineCenter := s.x0 + s.lineDirection * (c.enter + 1 / 2) / (2 : K) }) := by
  unfold SelectNearest.Select
  rw [if_pos h]

theorem SelectNearest.Select_ignore {K : Type} [Field K] (s : SelectNearest K)
    (c : SelectCall K) : (s.Select c).2.ignore = s.ignore := by
  by_cases h : s.ignore = some c.obj
  · rw [SelectNearest.Select_ignored s c h]
  · rw [SelectNearest.Select_accepted s c h]

theorem RayTrace_nearest_cons {K : Type} [Field K] (c : SelectCall K)
    (rest : List (SelectCall K)) (s : SelectNearest K) :
    RayTrace SelectNearest.Select (c :: rest) s
      = RayTrace SelectNearest.Select rest (s.Select c).2 := by
  have h : (s.Select c).1 = false := by
    unfold SelectNearest.Select
    split <;> rfl
  simp only [RayTrace, h, Bool.false_eq_true, if_false]

/-- The body the nearest selector holds after a ray trace is the last body
presented that is not the ignore body, or the one it held before when every
body presented was the ignore body. -/
theorem nearest_result {K : Type} [Field K] :
    ∀ (hits : List (SelectCall K)) (s : SelectNearest K) (o : ObjId),
      (RayTrace SelectNearest.Select hits s).result = some o →
      (∃ pre c post, hits = pre ++ c :: post ∧ c.obj = o ∧ s.ignore ≠ some c.obj
          ∧ ∀ d ∈ post, s.ignore = some d.obj)
        ∨ (s.result = some o ∧ ∀ d ∈ hits, s.ignore = some d.obj) := by
  intro hits
  induction hits with
  | nil =>
    intro s o h
    exact Or.inr ⟨h, fun d hd => absurd hd (List.not_mem_nil d)⟩
  | cons c rest ih =>
    intro s o h
    rw [RayTrace_nearest_cons] at h
    rcases ih _ o h with ⟨pre, c2, post, h1, h2, h3, h4⟩ | ⟨h1, h2⟩
    · rw [SelectNearest.Select_ignore] at h3 h4
      exact Or.inl ⟨c :: pre, c2, post, by rw [h1]; rfl, h2, h3, h4⟩
    · rw [SelectNearest.Select_ignore] at h2
      by_cases hc : s.ignore = some c.obj
      · rw [SelectNearest.Select_ignored s c hc] at h1
        refine Or.inr ⟨h1, ?_⟩
        intro d hd
        rcases List.mem_cons.1 hd with rfl | hd
        · exact hc
        · exact h2 d hd
      · rw [SelectNearest.Select_accepted s c hc] at h1
        simp only [Option.some.injEq] at h1
        exact Or.inl ⟨[], c, rest, rfl, h1, hc, h2⟩

theorem nearest_all_ignored {K : Type} [Field K] :
    ∀ (hits : List (SelectCall K)) (s : SelectNearest K),
      (∀ d ∈ hits, s.ignore = some d.obj) → RayTrace SelectNearest.Select hits s = s := by
  intro hits
  induction hits with
  | nil => intro s _; rfl
  | cons c rest ih =>
    intro s h
    rw [RayTrace_nearest_cons, SelectNearest.Select_ignored s c (h c (List.mem_cons_self _ _))]
    exact ih s (fun d hd => h d (List.mem_cons_of_mem _ hd))

theorem RayTrace_all {K : Type} :
    ∀ (hits : List (SelectCall K)) (s : SelectAll K),
      RayTrace SelectAll.Select hits s
        = { s with result := s.result
              ++ hits.map (fun c => (⟨c.obj, c.norm, c.enter, c.exit⟩ : CollisionPoint K)) } := by
  intro hits
  induction hits with
  | nil => intro s; simp [RayTrace]
  | cons c rest ih =>
    intro s
    simp only [RayTrace, SelectAll.Select, Bool.false_eq_true, if_false, List.map_cons]
    rw [ih]
    simp

theorem TraceAll_eq {K : Type} [Field K] (hits : List (SelectCall K)) (x0 a : vec2d K)
    (result : List (CollisionPoint K)) :
    TraceAll hits x0 a result
      = result ++ hits.map (fun c => (⟨c.obj, c.norm, c.enter, c.exit⟩ : CollisionPoint K)) := by
  unfold TraceAll
  rw [RayTrace_all]

theorem TraceNearest_result {K : Type} [Field K] (hits : List (SelectCall K))
    (uninit : vec2d K) (ignore : Option ObjId) (x0 a : vec2d K) (ht norm : Option (vec2d K)) :
    (TraceNearest hits uninit ignore x0 a ht norm).1
      = (RayTrace SelectNearest.Select hits (SelectNearest.start uninit ignore x0 a)).result := by
  unfold TraceNearest
  simp only []
  split <;> rfl

/-- A sample run with a tie: two walls at `x = 3`.  Both are recorded by
`TraceAll` with the enter fraction -1/5; the sample intersection test counts a
wall that stands at the end of the segment, so `TraceNearest` returns the one
visited last. -/
theorem wall_tie :
    (TraceNearest (nearestCalls (wallCollide wallTie) [1, 2] ⟨0, 0⟩ none ⟨0, 0⟩ ⟨10, 0⟩)
        ⟨0, 0⟩ none ⟨0, 0⟩ ⟨10, 0⟩ none none).1 = some 2
    ∧ (TraceNearest (nearestCalls (wallCollide wallTie) [2, 1] ⟨0, 0⟩ none ⟨0, 0⟩ ⟨10, 0⟩)
        ⟨0, 0⟩ none ⟨0, 0⟩ ⟨10, 0⟩ none none).1 = some 1
    ∧ (TraceAll (allCalls (wallCollide wallTie) [1, 2] ⟨0, 0⟩ ⟨10, 0⟩ []) ⟨0, 0⟩ ⟨10, 0⟩ []).map
        (fun p => (p.obj, p.enter)) = [(1, -1 / 5), (2, -1 / 5)] := by
  have h12 : nearestCalls (wallCollide wallTie) [1, 2] ⟨0, 0⟩ none ⟨0, 0⟩ ⟨10, 0⟩
      = [⟨1, ⟨-1, 0⟩, -1 / 5, -1 / 5⟩, ⟨2, ⟨-1, 0⟩, 1 / 2, 1 / 2⟩] := by
    simp [nearestCalls, RayTraceCalls, wallCollide, wallTie, SelectNearest.start,
      SelectNearest.Select, SelectNearest.GetCenter, SelectNearest.GetDirection,
      vec2d_add_def, vec2d_mul_def, vec2d_div_def]
    norm_num
  have h21 : nearestCalls (wallCollide wallTie) [2, 1] ⟨0, 0⟩ none ⟨0, 0⟩ ⟨10, 0⟩
      = [⟨2, ⟨-1, 0⟩, -1 / 5, -1 / 5⟩, ⟨1, ⟨-1, 0⟩, 1 / 2, 1 / 2⟩] := by
    simp [nearestCalls, RayTraceCalls, wallCollide, wallTie, SelectNearest.start,
      SelectNearest.Select, SelectNearest.GetCenter, SelectNearest.GetDirection,
      vec2d_add_def, vec2d_mul_def, vec2d_div_def]
    norm_num
  refine ⟨?_, ?_, ?_⟩
  · rw [TraceNearest_result, h12]
    simp [RayTrace_nearest_cons, RayTrace, SelectNearest.start, SelectNearest.Select]
  · rw [TraceNearest_result, h21]
    simp [RayTrace_nearest_cons, RayTrace, SelectNearest.start, SelectNearest.Select]
  · rw [TraceAll_eq]
    simp [allCalls, RayTraceCalls, wallCollide, wallTie, SelectAll.Select,
      SelectAll.GetCenter, SelectAll.GetDirection, vec2d_add_def, vec2d_mul_def,
      vec2d_div_def]
    norm_num

theorem RayTrace_nearest_append {K : Type} [Field K] :
    ∀ (l1 l2 : List (SelectCall K)) (s : SelectNearest K),
      RayTrace SelectNearest.Select (l1 ++ l2) s
        = RayTrace SelectNearest.Select l2 (RayTrace SelectNearest.Select l1 s) := by
  intro l1
  induction l1 with
  | nil => intro l2 s; rfl
  | cons c rest ih =>
    intro l2 s
    rw [List.cons_append, RayTrace_nearest_cons, RayTrace_nearest_cons, ih]

theorem RayTrace_nearest_ignore {K : Type} [Field K] :
    ∀ (l : List (SelectCall K)) (s : SelectNearest K),
      (RayTrace SelectNearest.Select l s).ignore = s.ignore := by
  intro l
  induction l with
  | nil => intro s; rfl
  | cons c rest ih =>
    intro s
    rw [RayTrace_nearest_cons, ih, SelectNearest.Select_ignore]

theorem RayTrace_nearest_keeps_result {K : Type} [Field K] :
    ∀ (l : List (SelectCall K)) (s : SelectNearest K), s.result ≠ none →
      (RayTrace SelectNearest.Select l s).result ≠ none := by
  intro l
  induction l with
  | nil => intro s hs; exact hs
  | cons c rest ih =>
    intro s hs
    rw [RayTrace_nearest_cons]
    apply ih
    by_cases hc : s.ignore = some c.obj
    · rw [SelectNearest.Select_ignored s c hc]; exact hs
    · rw [SelectNearest.Select_accepted s c hc]; simp

/-- C16: `TraceNearest` never returns the ignore body.  A candidate equal to the
ignore body leaves the selector as it is (result, hit position, normal and
search segment); the returned body is none or a body different from the ignore
body; it is none exactly when every candidate presented was the ignore body,
and then the outputs behind `ht` and `norm` are not written. -/
theorem TraceNearest_never_ignored {K : Type} [Field K] (hits : List (SelectCall K))
    (uninit : vec2d K) (ignore : Option ObjId) (x0 a : vec2d K) (ht norm : Option (vec2d K)) :
    (∀ (s : SelectNearest K) (c : SelectCall K), s.ignore = some c.obj →
        s.Select c = (false, s))
      ∧ ((TraceNearest hits uninit ignore x0 a ht norm).1 = none
          ∨ ∃ o, (TraceNearest hits uninit ignore x0 a ht norm).1 = some o ∧ ignore ≠ some o)
      ∧ ((TraceNearest hits uninit ignore x0 a ht norm).1 = none
          ↔ ∀ d ∈ hits, ignore = some d.obj)
      ∧ ((TraceNearest hits uninit ignore x0 a ht norm).1 = none →
          (TraceNearest hits uninit ignore x0 a ht norm).2 = (ht, norm)) := by
  have hsome : ∀ o, (TraceNearest hits uninit ignore x0 a ht norm).1 = some o →
      ignore ≠ some o ∧ ∃ d ∈ hits, ignore ≠ some d.obj := by
    intro o h
    rw [TraceNearest_result] at h
    rcases nearest_result hits _ o h with ⟨pre, c, post, h1, h2, h3, _⟩ | ⟨h1, _⟩
    · have h3' : ignore ≠ some c.obj := h3
      refine ⟨by rw [← h2]; exact h3', c, ?_, h3'⟩
      rw [h1]
      simp
    · exact absurd h1 (by simp [SelectNearest.start])
  refine ⟨fun s c h => SelectNearest.Select_ignored s c h, ?_, ?_, ?_⟩
  · cases hr : (TraceNearest hits uninit ignore x0 a ht norm).1 with
    | none => exact Or.inl rfl
    | some o => exact Or.inr ⟨o, rfl, (hsome o hr).1⟩
  · constructor
    · intro h d hd
      by_contra hne
      rw [TraceNearest_result] at h
      obtain ⟨pre, post, rfl⟩ := List.append_of_mem hd
      rw [RayTrace_nearest_append, RayTrace_nearest_cons] at h
      refine RayTrace_nearest_keeps_result post _ ?_ h
      rw [SelectNearest.Select_accepted _ d (by rw [RayTrace_nearest_ignore]; exact hne)]
      simp
    · intro h
      rw [TraceNearest_result, nearest_all_ignored hits _ h]
      rfl
  · intro h
    unfold TraceNearest at h ⊢
    simp only [] at h ⊢
    split
    · rename_i o ho
      rw [ho] at h
      simp at h
    · rfl

/-- Witness of C16: body 1 ignored; when it is the only body presented nothing
is returned and the outputs keep their values, and when body 2 is presented
after it, body 2 is returned. -/
theorem TraceNearest_never_ignored_witness :
    SelectNearest.Select (SelectNearest.start (⟨0, 0⟩ : vec2d ℚ) (some 1) ⟨0, 0⟩ ⟨10, 0⟩)
        ⟨1, ⟨0, 1⟩, -2 / 5, -1 / 5⟩
      = (false, SelectNearest.start (⟨0, 0⟩ : vec2d ℚ) (some 1) ⟨0, 0⟩ ⟨10, 0⟩)
    ∧ (TraceNearest [(⟨1, ⟨0, 1⟩, -2 / 5, -1 / 5⟩ : SelectCall ℚ)] ⟨0, 0⟩ (some 1) ⟨0, 0⟩
        ⟨10, 0⟩ (some ⟨3, 4⟩) (some ⟨5, 6⟩)).1 = none
    ∧ (TraceNearest [(⟨1, ⟨0, 1⟩, -2 / 5, -1 / 5⟩ : SelectCall ℚ)] ⟨0, 0⟩ (some 1) ⟨0, 0⟩
        ⟨10, 0⟩ (some ⟨3, 4⟩) (some ⟨5, 6⟩)).2 = (some ⟨3, 4⟩, some ⟨5, 6⟩)
    ∧ (TraceNearest twoHits ⟨0, 0⟩ (some 1) ⟨0, 0⟩ ⟨10, 0⟩ none none).1 = some 2 :=
  have h := TraceNearest_never_ignored [(⟨1, ⟨0, 1⟩, -2 / 5, -1 / 5⟩ : SelectCall ℚ)]
    ⟨0, 0⟩ (some 1) ⟨0, 0⟩ ⟨10, 0⟩ (some ⟨3, 4⟩) (some ⟨5, 6⟩)
  have hn := h.2.2.1.2 (by decide)
  ⟨h.1 _ _ rfl, hn, h.2.2.2 hn, by rw [TraceNearest_result]; rfl⟩

/-- C17: `TraceAll` collects every body presented to its selector: each call of
`Select` appends exactly one `CollisionPoint` with the body, normal, enter and
exit fractions of the call and returns false, so that the result vector
afterwards is what it held before followed by one record per call, in the
order of the calls; a body with `enter = exit` is recorded like any other. -/
theorem TraceAll_collects {K : Type} [Field K] (hits : List (SelectCall K)) (x0 a : vec2d K)
    (result : List (CollisionPoint K)) (s : SelectAll K) (c : SelectCall K) :
    TraceAll hits x0 a result
        = result ++ hits.map (fun c => (⟨c.obj, c.norm, c.enter, c.exit⟩ : CollisionPoint K))
      ∧ (TraceAll hits x0 a result).length = result.length + hits.length
      ∧ (s.Select c).2.result = s.result ++ [⟨c.obj, c.norm, c.enter, c.exit⟩]
      ∧ (s.Select c).1 = false
      ∧ (s.Select ⟨c.obj, c.norm, c.enter, c.enter⟩).2.result
          = s.result ++ [⟨c.obj, c.norm, c.enter, c.enter⟩] := by
  refine ⟨TraceAll_eq hits x0 a result, ?_, rfl, rfl, rfl⟩
  rw [TraceAll_eq, List.length_append, List.length_map]

theorem vec2d_eq {K : Type} (a b : vec2d K) (hx : a.x = b.x) (hy : a.y = b.y) : a = b := by
  cases a
  cases b
  simp only [vec2d.mk.injEq]
  exact ⟨hx, hy⟩

theorem SelectNearest.Select_anchored {K : Type} [Field K] (s : SelectNearest K)
    (c : SelectCall K) (hs : s.Anchored) : (s.Select c).2.Anchored := by
  by_cases h : s.ignore = some c.obj
  · rw [SelectNearest.Select_ignored s c h]
    exact hs
  · rw [SelectNearest.Select_accepted s c h]
    rfl

theorem RayTrace_nearest_anchored {K : Type} [Field K] :
    ∀ (l : List (SelectCall K)) (s : SelectNearest K), s.Anchored →
      (RayTrace SelectNearest.Select l s).Anchored := by
  intro l
  induction l with
  | nil => intro s hs; exact hs
  | cons c rest ih =>
    intro s hs
    rw [RayTrace_nearest_cons]
    exact ih _ (SelectNearest.Select_anchored s c hs)

theorem len_scale {K : Type} [LinearOrderedField K] (sqrt : K → K)
    (hsqrt : ∀ r, 0 ≤ r → 0 ≤ sqrt r ∧ sqrt r * sqrt r = r) (v : vec2d K) (k : K)
    (hk : 0 ≤ k) : vec2d.len sqrt (v * k) = vec2d.len sqrt v * k := by
  have hv := hsqrt (v.x * v.x + v.y * v.y) (add_nonneg (mul_self_nonneg _) (mul_self_nonneg _))
  rw [vec2d_mul_def]
  apply len_eq_of_sq sqrt hsqrt _ _ _ (mul_nonneg hv.1 hk)
  linear_combination (-(k * k)) * hv.2

/-- C18: the nearest-mode selector keeps its search segment anchored at the
origin: `lineCenter = x0 + lineDirection / 2` holds when `TraceNearest` sets the
selector up, after every `Select` call that starts from an anchored selector,
and so after every sequence of calls.  After accepting a candidate with enter
fraction `e` the segment still starts at `x0`, ends at the recorded hit point,
`x0 + lineDirection = resultPos = old centre + old direction * e`, and its
centre is the midpoint between `x0` and the hit point; the new direction is the
old one times `e + 1/2`, and for `-1/2 ≤ e ≤ 1/2` the new segment is not longer
than the old one. -/
theorem SelectNearest_segment {K : Type} [LinearOrderedField K] (sqrt : K → K)
    (hsqrt : ∀ r, 0 ≤ r → 0 ≤ sqrt r ∧ sqrt r * sqrt r = r)
    (s : SelectNearest K) (c : SelectCall K) (hs : s.Anchored)
    (hits : List (SelectCall K)) (uninit : vec2d K) (ignore : Option ObjId) (x0 a : vec2d K) :
    (SelectNearest.start uninit ignore x0 a).Anchored
      ∧ (RayTrace SelectNearest.Select hits (SelectNearest.start uninit ignore x0 a)).Anchored
      ∧ (s.Select c).2.Anchored
      ∧ (s.ignore ≠ some c.obj →
          (s.Select c).2.x0 = s.x0
            ∧ (s.Select c).2.x0 + (s.Select c).2.lineDirection = (s.Select c).2.resultPos
            ∧ (s.Select c).2.resultPos = s.lineCenter + s.lineDirection * c.enter
            ∧ (s.Select c).2.lineCenter
                = (s.x0 + (s.Select c).2.resultPos) / (2 : K)
            ∧ (s.Select c).2.lineDirection = s.lineDirection * (c.enter + 1 / 2)
            ∧ (-1 / 2 ≤ c.enter → c.enter ≤ 1 / 2 →
                vec2d.len sqrt (s.Select c).2.lineDirection
                  ≤ vec2d.len sqrt s.lineDirection)) := by
  have h0 : (SelectNearest.start uninit ignore x0 a).Anchored := rfl
  refine ⟨h0, RayTrace_nearest_anchored hits _ h0, SelectNearest.Select_anchored s c hs, ?_⟩
  intro hacc
  rw [SelectNearest.Select_accepted s c hacc]
  have hs' : s.lineCenter = s.x0 + s.lineDirection / (2 : K) := hs
  refine ⟨rfl, ?_, rfl, ?_, rfl, ?_⟩
  · simp only [hs', vec2d_add_def, vec2d_mul_def, vec2d_div_def]
    apply vec2d_eq
    · simp only []
      ring
    · simp only []
      ring
  · simp only [hs', vec2d_add_def, vec2d_mul_def, vec2d_div_def]
    apply vec2d_eq
    · simp only []
      ring
    · simp only []
      ring
  · intro h1 h2
    simp only []
    have hk0 : (0 : K) ≤ c.enter + 1 / 2 := by linarith
    have hk1 : c.enter + 1 / 2 ≤ 1 := by linarith
    rw [len_scale sqrt hsqrt _ _ hk0]
    have hl : 0 ≤ vec2d.len sqrt s.lineDirection :=
      (hsqrt _ (add_nonneg (mul_self_nonneg _) (mul_self_nonneg _))).1
    calc vec2d.len sqrt s.lineDirection * (c.enter + 1 / 2)
        ≤ vec2d.len sqrt s.lineDirection * 1 := mul_le_mul_of_nonneg_left hk1 hl
      _ = vec2d.len sqrt s.lineDirection := mul_one _

/-- Witness of C18: over the real numbers, the selector set up for the segment
from (0,0) to (10,0) accepts body 1 with enter fraction 1/5: the new segment
ends at the hit point (7,0) and is not longer than the old one. -/
theorem SelectNearest_segment_witness :
    ((SelectNearest.start (⟨0, 0⟩ : vec2d ℝ) none ⟨0, 0⟩ ⟨10, 0⟩).Select
        ⟨1, ⟨0, 1⟩, 1 / 5, 2 / 5⟩).2.Anchored
      ∧ ((SelectNearest.start (⟨0, 0⟩ : vec2d ℝ) none ⟨0, 0⟩ ⟨10, 0⟩).Select
          ⟨1, ⟨0, 1⟩, 1 / 5, 2 / 5⟩).2.resultPos = ⟨7, 0⟩
      ∧ ((SelectNearest.start (⟨0, 0⟩ : vec2d ℝ) none ⟨0, 0⟩ ⟨10, 0⟩).Select
          ⟨1, ⟨0, 1⟩, 1 / 5, 2 / 5⟩).2.x0
          + ((SelectNearest.start (⟨0, 0⟩ : vec2d ℝ) none ⟨0, 0⟩ ⟨10, 0⟩).Select
              ⟨1, ⟨0, 1⟩, 1 / 5, 2 / 5⟩).2.lineDirection
          = ((SelectNearest.start (⟨0, 0⟩ : vec2d ℝ) none ⟨0, 0⟩ ⟨10, 0⟩).Select
              ⟨1, ⟨0, 1⟩, 1 / 5, 2 / 5⟩).2.resultPos
      ∧ vec2d.len Real.sqrt
            ((SelectNearest.start (⟨0, 0⟩ : vec2d ℝ) none ⟨0, 0⟩ ⟨10, 0⟩).Select
              ⟨1, ⟨0, 1⟩, 1 / 5, 2 / 5⟩).2.lineDirection
          ≤ vec2d.len Real.sqrt
              (SelectNearest.start (⟨0, 0⟩ : vec2d ℝ) none ⟨0, 0⟩ ⟨10, 0⟩).lineDirection := by
  have h := SelectNearest_segment Real.sqrt real_sqrt_spec
    (SelectNearest.start (⟨0, 0⟩ : vec2d ℝ) none ⟨0, 0⟩ ⟨10, 0⟩) ⟨1, ⟨0, 1⟩, 1 / 5, 2 / 5⟩ rfl
    [] ⟨0, 0⟩ none ⟨0, 0⟩ ⟨10, 0⟩
  have h4 := h.2.2.2 (by simp [SelectNearest.start])
  refine ⟨h.2.2.1, ?_, h4.2.1, h4.2.2.2.2.2 (by norm_num) (by norm_num)⟩
  rw [h4.2.2.1]
  simp only [SelectNearest.start, vec2d_add_def, vec2d_mul_def, vec2d_div_def]
  apply vec2d_eq
  · norm_num
  · norm_num

end Tzod
